import Mathlib

/-!
Verification of the Kue platform's relationship scoring, deduplication and
graph-traversal engine, shallowly embedded from the TypeScript source
(`scoring.service.ts`, `dedup.service.ts`, `traverse.service.ts`).

Numbers that the source manipulates as IEEE doubles are modelled as real
numbers; `Math.round` is `fun x => Int.floor (x + 1/2)`, which Mathlib calls
`round`.  Interaction counters are natural numbers (they are accumulated
counts in the graph store); timestamps are real-valued epoch milliseconds.
-/

namespace Kue

/-! ## Scoring engine (`scoring.service.ts`) -/

/-- `Math.round(x * 100) / 100`: rounding to two decimals, as the source
does for every sub-score and for the composite. -/
noncomputable def round2 (x : ℝ) : ℝ := ((round (x * 100) : ℤ) : ℝ) / 100

/-- Milliseconds in a day, the divisor `1000 * 60 * 60 * 24`. -/
def msPerDay : ℝ := 1000 * 60 * 60 * 24

/-- `RECENCY_MAX_DAYS` constant. -/
def RECENCY_MAX_DAYS : ℝ := 365

/-- `FREQUENCY_MAX` constant. -/
def FREQUENCY_MAX : ℝ := 100

/-- `DURATION_MAX_DAYS` constant. -/
def DURATION_MAX_DAYS : ℝ := 1825

/-- The fixed scoring weights (`WEIGHTS` in `scoring.service.ts`). -/
structure Weights where
  recency : ℝ
  frequency : ℝ
  reciprocity : ℝ
  diversity : ℝ
  duration : ℝ

/-- `WEIGHTS` constant of the source. -/
def WEIGHTS : Weights :=
  { recency := 0.3
    frequency := 0.3
    reciprocity := 0.2
    diversity := 0.1
    duration := 0.1 }

/-- The per-edge interaction data fetched from the KNOWS relationship,
input of `calculateBreakdown` (field `now` is the wall clock captured by
the caller). -/
structure ScoreInput where
  now : ℝ
  lastContact : Option ℝ
  firstContact : Option ℝ
  interactionCount : ℕ
  emailsSent : ℕ
  emailsReceived : ℕ
  meetingCount : ℕ
  sources : List String

/-- The sub-score record returned by `calculateBreakdown`. -/
structure Breakdown where
  recency : ℝ
  frequency : ℝ
  reciprocity : ℝ
  diversity : ℝ
  duration : ℝ

/-- Recency before rounding: exponential decay (square root of the clamped
linear decay) of days since last contact, `0` when there is no last
contact. -/
noncomputable def rawRecency (d : ScoreInput) : ℝ :=
  match d.lastContact with
  | none => 0
  | some lc =>
    let daysSinceLast := (d.now - lc) / msPerDay
    Real.sqrt (max 0 (1 - daysSinceLast / RECENCY_MAX_DAYS))

/-- Frequency before rounding: log-normalised interaction count. -/
noncomputable def rawFrequency (d : ScoreInput) : ℝ :=
  if 0 < d.interactionCount then
    min 1 (Real.log (d.interactionCount + 1) / Real.log (FREQUENCY_MAX + 1))
  else 0

/-- Reciprocity before rounding: balance between sent and received email
counts, boosted by meetings, or a flat `0.5` when only meetings exist. -/
noncomputable def rawReciprocity (d : ScoreInput) : ℝ :=
  if 0 < d.emailsSent + d.emailsReceived then
    let ratio : ℝ :=
      (min d.emailsSent d.emailsReceived : ℕ) /
        ((max d.emailsSent d.emailsReceived : ℕ) : ℝ)
    let meetingBoost : ℝ := if 0 < d.meetingCount then 0.2 else 0
    min 1 (ratio + meetingBoost)
  else if 0 < d.meetingCount then 0.5
  else 0

/-- Diversity before rounding: average of source-tag coverage and
channel-presence coverage, capped at 1. -/
noncomputable def rawDiversity (d : ScoreInput) : ℝ :=
  let uniqueSources := d.sources.dedup
  let maxSources : ℝ := 4
  let sourceScore : ℝ := (uniqueSources.length : ℝ) / maxSources
  let channelTypes : ℕ :=
    ([decide (0 < d.emailsSent + d.emailsReceived),
      decide (0 < d.meetingCount),
      uniqueSources.contains "linkedin",
      uniqueSources.contains "google_contacts"].filter id).length
  min 1 ((sourceScore + (channelTypes : ℝ) / 4) / 2)

/-- Duration before rounding: days known, linear over a 5-year horizon,
`0` when there is no first contact. -/
noncomputable def rawDuration (d : ScoreInput) : ℝ :=
  match d.firstContact with
  | none => 0
  | some fc =>
    let daysKnown := (d.now - fc) / msPerDay
    min 1 (daysKnown / DURATION_MAX_DAYS)

/-- `calculateBreakdown`: each sub-score is computed and rounded to two
decimals, exactly as the source's return statement does. -/
noncomputable def calculateBreakdown (d : ScoreInput) : Breakdown :=
  { recency := round2 (rawRecency d)
    frequency := round2 (rawFrequency d)
    reciprocity := round2 (rawReciprocity d)
    diversity := round2 (rawDiversity d)
    duration := round2 (rawDuration d) }

/-- `computeCompositeScore`: the weighted sum of the breakdown components,
normalised to the 0..100 scale and rounded to two decimals
(`Math.round(score * 100 * 100) / 100`). -/
noncomputable def computeCompositeScore (b : Breakdown) : ℝ :=
  let score :=
    b.recency * WEIGHTS.recency +
    b.frequency * WEIGHTS.frequency +
    b.reciprocity * WEIGHTS.reciprocity +
    b.diversity * WEIGHTS.diversity +
    b.duration * WEIGHTS.duration
  ((round (score * 100 * 100) : ℤ) : ℝ) / 100

/-- The composite formula exactly as the specification words it:
`100 * (0.30·recency + 0.30·frequency + 0.20·reciprocity + 0.10·diversity +
0.10·duration)`, rounded to 2 decimals. -/
noncomputable def specCompositeFormula (b : Breakdown) : ℝ :=
  round2 (100 * (0.30 * b.recency + 0.30 * b.frequency +
    0.20 * b.reciprocity + 0.10 * b.diversity + 0.10 * b.duration))

/-- A KNOWS edge whose `lastContact` lies three years in the future of the
scoring wall clock (`now = 0`). -/
noncomputable def futureContactInput : ScoreInput :=
  { now := 0
    lastContact := some (1095 * msPerDay)
    firstContact := none
    interactionCount := 0
    emailsSent := 0
    emailsReceived := 0
    meetingCount := 0
    sources := [] }

/-- A KNOWS edge with no interaction data at all. -/
def emptyScoreInput : ScoreInput :=
  { now := 0
    lastContact := none
    firstContact := none
    interactionCount := 0
    emailsSent := 0
    emailsReceived := 0
    meetingCount := 0
    sources := [] }

/-- The specification's worked scenario: last contact 10 days ago, first
contact 2 years (730 days) ago, 40 interactions, 20 emails sent, 18
received, 2 meetings, sources gmail and calendar. -/
noncomputable def scenarioInput : ScoreInput :=
  { now := 730 * msPerDay
    lastContact := some (720 * msPerDay)
    firstContact := some 0
    interactionCount := 40
    emailsSent := 20
    emailsReceived := 18
    meetingCount := 2
    sources := ["gmail", "calendar"] }

/-- The persisted state of one KNOWS edge: the raw interaction counters
plus the stored score fields (`r.strength`, `r.scoreBreakdown`) that the
scoring service writes back. -/
structure KnowsEdge where
  lastContact : Option ℝ
  firstContact : Option ℝ
  interactionCount : ℕ
  emailsSent : ℕ
  emailsReceived : ℕ
  meetingCount : ℕ
  sources : List String
  strength : Option ℝ
  scoreBreakdown : Option Breakdown

/-- The interaction data `scoreContact` feeds to `calculateBreakdown`:
only the raw counters of the edge, never the stored strength. -/
def edgeInput (now : ℝ) (e : KnowsEdge) : ScoreInput :=
  { now := now
    lastContact := e.lastContact
    firstContact := e.firstContact
    interactionCount := e.interactionCount
    emailsSent := e.emailsSent
    emailsReceived := e.emailsReceived
    meetingCount := e.meetingCount
    sources := e.sources }

/-- `scoreContact` on an existing edge: recompute breakdown and composite
from the raw counters and write them back (`SET r.strength = $score,
r.scoreBreakdown = $breakdownJson`); returns the updated edge and the
score reported to the caller. -/
noncomputable def scoreOne (now : ℝ) (e : KnowsEdge) : KnowsEdge × ℝ :=
  let b := calculateBreakdown (edgeInput now e)
  let score := computeCompositeScore b
  ({ e with strength := some score, scoreBreakdown := some b }, score)

/-- One full `scoreAllContacts` run over the stored KNOWS edges of a user:
every edge's strength is recomputed from its raw counters and written
back. -/
noncomputable def scoreAllState (now : ℝ) (es : List KnowsEdge) : List KnowsEdge :=
  es.map (fun e => (scoreOne now e).1)

/-- One row fetched by `scoreAllContacts` (person identity plus the KNOWS
counters). -/
structure FetchedRecord where
  personId : String
  email : String
  sources : List String
  interactionCount : ℕ
  lastContact : Option ℝ
  firstContact : Option ℝ
  emailsSent : ℕ
  emailsReceived : ℕ
  meetingCount : ℕ

/-- The `ScoreResult` record `scoreAllContacts` accumulates per contact. -/
structure ScoreResult where
  personId : String
  email : String
  score : ℝ
  breakdown : Breakdown

/-- The summary `scoreAllContacts` returns (timing omitted). -/
structure ScoreAllSummary where
  scored : ℕ
  averageScore : ℝ

/-- Scoring of a single fetched row inside the `scoreAllContacts` loop. -/
noncomputable def scoreRecord (now : ℝ) (r : FetchedRecord) : ScoreResult :=
  let b := calculateBreakdown
    { now := now
      lastContact := r.lastContact
      firstContact := r.firstContact
      interactionCount := r.interactionCount
      emailsSent := r.emailsSent
      emailsReceived := r.emailsReceived
      meetingCount := r.meetingCount
      sources := r.sources }
  { personId := r.personId
    email := r.email
    score := computeCompositeScore b
    breakdown := b }

/-- `scoreAllContacts`: an empty fetch short-circuits with
`{scored: 0, averageScore: 0}` before any score is computed or written;
otherwise every record is scored, the batch update writes every
`ScoreResult` (returned here as the second component), and the average is
the rounded mean of the scores. -/
noncomputable def scoreAllContacts (now : ℝ) (records : List FetchedRecord) :
    ScoreAllSummary × List ScoreResult :=
  if records.length = 0 then ({ scored := 0, averageScore := 0 }, [])
  else
    let allScores := records.map (scoreRecord now)
    let totalScore := (allScores.map (fun sr => sr.score)).sum
    ({ scored := allScores.length
       averageScore := round2 (totalScore / (allScores.length : ℝ)) },
     allScores)

/-- A fetched row carrying no interaction data. -/
def emptyFetchedRecord : FetchedRecord :=
  { personId := "p1"
    email := "p1@example.com"
    sources := []
    interactionCount := 0
    lastContact := none
    firstContact := none
    emailsSent := 0
    emailsReceived := 0
    meetingCount := 0 }

/-! ## Deduplication engine (`dedup.service.ts`) -/

/-- A normalized contact record (`Contact` in `common/types`).  Optional
fields are `none` when the source record had no value (JS `null` /
`undefined`; the model assumes field values are non-empty strings, so JS
truthiness coincides with `Option`). -/
structure Contact where
  email : String
  name : Option String
  firstName : Option String
  lastName : Option String
  phone : Option String
  company : Option String
  title : Option String
  linkedinUrl : Option String
  source : String
deriving DecidableEq

/-- JS `s.toLowerCase()`, modelled on the character list (the `String`
primitives are opaque to the kernel). -/
def jsToLower (s : String) : String := String.mk (s.data.map Char.toLower)

/-- JS `s.trim()`: strip whitespace from both ends. -/
def jsTrim (s : String) : String :=
  String.mk (((s.data.dropWhile Char.isWhitespace).reverse.dropWhile
    Char.isWhitespace).reverse)

/-- JS `s.endsWith(t)`. -/
def jsEndsWith (s t : String) : Bool := t.data.isSuffixOf s.data

/-- The batch-internal dedup key: `contact.email.toLowerCase().trim()`. -/
def emailKey (c : Contact) : String := jsTrim (jsToLower c.email)

/-- `contact.email.endsWith('@linkedin.placeholder')`. -/
def isPlaceholder (c : Contact) : Bool :=
  jsEndsWith c.email "@linkedin.placeholder"

/-- `mergeContacts`: merge two same-key contacts, preferring non-null
fields of the newer one, keeping the existing email and source. -/
def mergeContacts (existing incoming : Contact) : Contact :=
  { email := existing.email
    name := incoming.name.orElse (fun _ => existing.name)
    firstName := incoming.firstName.orElse (fun _ => existing.firstName)
    lastName := incoming.lastName.orElse (fun _ => existing.lastName)
    phone := incoming.phone.orElse (fun _ => existing.phone)
    company := incoming.company.orElse (fun _ => existing.company)
    title := incoming.title.orElse (fun _ => existing.title)
    linkedinUrl := incoming.linkedinUrl.orElse (fun _ => existing.linkedinUrl)
    source := existing.source }

/-- `enrichExistingContact`: merge a new observation into a graph contact,
always keeping the graph contact's real email but adopting the new
observation's source tag. -/
def enrichExistingContact (existing incoming : Contact) : Contact :=
  { email := existing.email
    name := incoming.name.orElse (fun _ => existing.name)
    firstName := incoming.firstName.orElse (fun _ => existing.firstName)
    lastName := incoming.lastName.orElse (fun _ => existing.lastName)
    phone := incoming.phone.orElse (fun _ => existing.phone)
    company := incoming.company.orElse (fun _ => existing.company)
    title := incoming.title.orElse (fun _ => existing.title)
    linkedinUrl := incoming.linkedinUrl.orElse (fun _ => existing.linkedinUrl)
    source := incoming.source }

/-- One `emailMap.set` step of the batch-internal dedup: a contact whose
key is already present merges into the stored record (keeping its
insertion position, like a JS `Map`), a fresh key is appended. -/
def insertMerge (acc : List Contact) (c : Contact) : List Contact :=
  if acc.any (fun r => emailKey r = emailKey c) then
    acc.map (fun r => if emailKey r = emailKey c then mergeContacts r c else r)
  else acc ++ [c]

/-- Step 1 of `deduplicateContacts`: collapse exact-email duplicates
within the input batch, in input order. -/
def internalDedup (contacts : List Contact) : List Contact :=
  contacts.foldl insertMerge []

/-- The graph-store lookups `deduplicateContacts` performs
(`findByEmail`, `findByNameAndCompany`, `findByDomainAndName`),
abstracted as pure functions of the already-fixed owner. -/
structure GraphLookup where
  byEmail : String → Option Contact
  byNameCompany : String → String → Option Contact
  byDomainName : String → String → String → Option Contact

/-- Step 2 of `deduplicateContacts` for one internally-deduped contact:
exact-email enrichment for real addresses, fuzzy matching for placeholder
addresses, dropping unmatched placeholders (`none` = no output record). -/
def dedupStep2 (g : GraphLookup) (c : Contact) : Option Contact :=
  if isPlaceholder c = false then
    match g.byEmail c.email with
    | some existing => some (enrichExistingContact existing c)
    | none => some c
  else
    match c.firstName, c.company with
    | some fn, some co =>
      (match g.byNameCompany fn co with
       | some m => some (enrichExistingContact m c)
       | none =>
         match c.lastName with
         | some ln =>
           (match g.byDomainName fn ln co with
            | some m => some (enrichExistingContact m c)
            | none => none)
         | none => none)
    | _, _ => none

/-- `deduplicateContacts`: batch-internal collapse followed by the
per-contact graph-matching stage. -/
def deduplicateContacts (g : GraphLookup) (contacts : List Contact) :
    List Contact :=
  (internalDedup contacts).filterMap (dedupStep2 g)

/-- Collapse of one same-key group, in input order: the fold the stored
record of that key undergoes. -/
def collapseGroup (c0 : Contact) (rest : List Contact) : Contact :=
  rest.foldl mergeContacts c0

/-- The last non-null value of a field across a group, in input order
(the specification's merge outcome for a field). -/
def lastNonNull (l : List (Option String)) : Option String :=
  l.foldl (fun acc o => o.orElse (fun _ => acc)) none

/-- A graph store with no contacts at all: every lookup misses. -/
def emptyLookup : GraphLookup :=
  { byEmail := fun _ => none
    byNameCompany := fun _ _ => none
    byDomainName := fun _ _ _ => none }

/-- Batch contact observed first: bare record from gmail. -/
def contactA : Contact :=
  { email := "a@x.com"
    name := none
    firstName := none
    lastName := none
    phone := none
    company := none
    title := none
    linkedinUrl := none
    source := "gmail" }

/-- Batch contact observed second: same email, richer record from
linkedin. -/
def contactB : Contact :=
  { email := "a@x.com"
    name := some "Ann"
    firstName := none
    lastName := none
    phone := none
    company := some "Acme"
    title := none
    linkedinUrl := none
    source := "linkedin" }

/-- The specification's placeholder contact from a LinkedIn CSV import. -/
def johnPlaceholder : Contact :=
  { email := "john.doe@linkedin.placeholder"
    name := some "John Doe"
    firstName := some "John"
    lastName := some "Doe"
    phone := none
    company := some "Acme"
    title := none
    linkedinUrl := some "https://linkedin.com/in/johndoe"
    source := "linkedin" }

/-- The existing graph Person the placeholder contact fuzzy-matches. -/
def johnGraphContact : Contact :=
  { email := "john@acme.com"
    name := some "John"
    firstName := some "John"
    lastName := none
    phone := none
    company := some "Acme"
    title := none
    linkedinUrl := none
    source := "gmail" }

/-- A graph store holding exactly `johnGraphContact`, findable by
first-name + company. -/
def johnLookup : GraphLookup :=
  { byEmail := fun _ => none
    byNameCompany := fun fn co =>
      if fn = "John" ∧ co = "Acme" then some johnGraphContact else none
    byDomainName := fun _ _ _ => none }

/-! ## Graph traversal engine (`traverse.service.ts`) -/

/-- The relationship types the traversal queries distinguish. -/
inductive EdgeType where
  | knows
  | colleagues
  | worksAt
deriving DecidableEq

/-- A node of the property graph, with the properties the traversal
queries read.  `isPerson` distinguishes the `Person` label from
`KueUser`; `ownerId` is absent on user nodes. -/
structure GNode where
  id : String
  isPerson : Bool
  ownerId : Option String
  email : String
  name : String
  title : Option String
  company : Option String
deriving DecidableEq

/-- A directed relationship with its optional `strength` property
(strengths are modelled as rationals; only comparisons and averages of
stored values occur in the traversal queries). -/
structure GEdge where
  src : String
  dst : String
  etype : EdgeType
  strength : Option ℚ
deriving DecidableEq

/-- The graph store contents visible to the traversal queries. -/
structure GraphDB where
  nodes : List GNode
  edges : List GEdge

/-- Node lookup by id. -/
def getNode (db : GraphDB) (i : String) : Option GNode :=
  db.nodes.find? (fun n => n.id = i)

/-- Does id `i` name a `Person`-labelled node? -/
def nodeIsPerson (db : GraphDB) (i : String) : Bool :=
  match getNode db i with
  | some n => n.isPerson
  | none => false

/-- Does id `i` name a `KueUser`-labelled node? -/
def nodeIsUser (db : GraphDB) (i : String) : Bool :=
  match getNode db i with
  | some n => !n.isPerson
  | none => false

/-- The record shape `findSecondDegree` projects per row:
`p2 {.id, .email, .name, .title, .company, degree: 2, strength: r1.strength}`. -/
structure SecondDegreeResult where
  id : String
  email : String
  name : String
  title : Option String
  company : Option String
  degree : ℕ
  strength : Option ℚ
deriving DecidableEq

/-- Projection of a candidate node through a mediating direct edge. -/
def projectSecondDegree (p2 : GNode) (r1 : GEdge) : SecondDegreeResult :=
  { id := p2.id
    email := p2.email
    name := p2.name
    title := p2.title
    company := p2.company
    degree := 2
    strength := r1.strength }

/-- The targets reachable from `p1` by one or two
`COLLEAGUES_WITH|KNOWS` hops (directed, relationships pairwise distinct
and distinct from the mediating edge `r1`, per Cypher match semantics;
intermediate nodes are unconstrained, the endpoint must be a Person). -/
def fofTargets (db : GraphDB) (r1 : GEdge) (p1 : String) : List String :=
  let step := fun (e : GEdge) =>
    (e.etype = EdgeType.knows ∨ e.etype = EdgeType.colleagues) ∧ e ≠ r1
  let oneHop := db.edges.filterMap (fun e =>
    if step e ∧ e.src = p1 ∧ nodeIsPerson db e.dst then some e.dst else none)
  let twoHop := db.edges.flatMap (fun e1 =>
    if step e1 ∧ e1.src = p1 then
      db.edges.filterMap (fun e2 =>
        if step e2 ∧ e2 ≠ e1 ∧ e2.src = e1.dst ∧ nodeIsPerson db e2.dst
        then some e2.dst else none)
    else [])
  oneHop ++ twoHop

/-- The Cypher `WHERE` clause of `findSecondDegree` on candidate `p2`:
`p2.ownerId <> $userId AND NOT (u)-[:KNOWS]->(p2) AND
r1.strength >= $minStrength` (three-valued: a null `ownerId` or null
`strength` fails the comparison). -/
def secondDegreeFilter (db : GraphDB) (userId : String) (minStrength : ℚ)
    (r1 : GEdge) (p2 : GNode) : Bool :=
  (match p2.ownerId with
   | some o => o ≠ userId
   | none => false) &&
  !(db.edges.any (fun e =>
    e.etype = EdgeType.knows ∧ e.src = userId ∧ e.dst = p2.id)) &&
  (match r1.strength with
   | some st => minStrength ≤ st
   | none => false)

/-- Descending-by-strength insertion used to model `ORDER BY r1.strength
DESC` (structural recursion so that concrete queries evaluate). -/
def insertByStrength (x : SecondDegreeResult) :
    List SecondDegreeResult → List SecondDegreeResult
  | [] => [x]
  | y :: ys =>
    if y.strength.getD 0 ≤ x.strength.getD 0 then x :: y :: ys
    else y :: insertByStrength x ys

/-- Sort descending by mediating strength. -/
def sortByStrengthDesc (l : List SecondDegreeResult) :
    List SecondDegreeResult :=
  l.foldr insertByStrength []

/-- `findSecondDegree`: all matches of
`(u:KueUser {id})-[r1:KNOWS]->(p1:Person)-[:COLLEAGUES_WITH|KNOWS*1..2]->(p2:Person)`
passing the filter, projected, de-duplicated (`DISTINCT`), ordered by the
mediating strength descending and truncated to `limit`. -/
def findSecondDegree (db : GraphDB) (userId : String)
    (limit : ℕ) (minStrength : ℚ) : List SecondDegreeResult :=
  let rows := db.edges.flatMap (fun r1 =>
    if r1.etype = EdgeType.knows ∧ r1.src = userId ∧ nodeIsUser db userId ∧
        nodeIsPerson db r1.dst then
      (fofTargets db r1 r1.dst).filterMap (fun p2id =>
        match getNode db p2id with
        | some p2 =>
          if secondDegreeFilter db userId minStrength r1 p2
          then some (projectSecondDegree p2 r1)
          else none
        | none => none)
    else [])
  (sortByStrengthDesc (rows.dedup)).take limit

/-- Demonstration graph: user `u` knows Alice (strength 60); Alice knows
Bob, who belongs to another user's subgraph. -/
def secondDegreeDemoDB : GraphDB :=
  { nodes :=
      [{ id := "u", isPerson := false, ownerId := none, email := "u@kue.app",
         name := "Owner", title := none, company := none },
       { id := "a", isPerson := true, ownerId := some "u", email := "a@x.com",
         name := "Alice", title := none, company := none },
       { id := "b", isPerson := true, ownerId := some "v", email := "b@y.com",
         name := "Bob", title := none, company := none }]
    edges :=
      [{ src := "u", dst := "a", etype := EdgeType.knows, strength := some 60 },
       { src := "a", dst := "b", etype := EdgeType.knows, strength := none }] }

/-- The undirected KNOWS steps available from `cur` that do not reuse an
edge already on the path (Cypher paths are relationship-distinct): each
step is the index of the traversed edge and the node reached. -/
def knowsSteps (es : List GEdge) (used : List ℕ) (cur : String) :
    List (ℕ × String) :=
  (List.range es.length).filterMap (fun i =>
    match es[i]? with
    | some e =>
      if e.etype = EdgeType.knows ∧ i ∉ used then
        if e.src = cur then some (i, e.dst)
        else if e.dst = cur then some (i, e.src)
        else none
      else none
    | none => none)

/-- All relationship-distinct KNOWS trails of length at most `fuel`
starting at `cur` and avoiding `used`, as (edge-index list, end node)
pairs.  Bounded recursion models the `*..4` hop bound. -/
def trailsFrom (es : List GEdge) : ℕ → String → List ℕ → List (List ℕ × String)
  | 0, cur, _ => [([], cur)]
  | fuel + 1, cur, used =>
    ([], cur) :: (knowsSteps es used cur).flatMap (fun st =>
      (trailsFrom es fuel st.2 (st.1 :: used)).map
        (fun tr => (st.1 :: tr.1, tr.2)))

/-- The mathematical trail notion the enumeration is checked against: the
index list walks from the left node to the right node over KNOWS edges,
traversed in either direction. -/
def IsKnowsTrail (es : List GEdge) : String → String → List ℕ → Prop
  | cur, tgt, [] => cur = tgt
  | cur, tgt, i :: rest =>
    ∃ e, es[i]? = some e ∧ e.etype = EdgeType.knows ∧
      ((e.src = cur ∧ IsKnowsTrail es e.dst tgt rest) ∨
       (e.dst = cur ∧ IsKnowsTrail es e.src tgt rest))

/-- Keep the shorter of a stored best trail and a new candidate. -/
def pickShorter (best : Option (List ℕ)) (t : List ℕ) : Option (List ℕ) :=
  match best with
  | none => some t
  | some b => if t.length < b.length then some t else some b

/-- `shortestPath((u)-[:KNOWS*..4]-(target))`: among the 1..4-hop
relationship-distinct KNOWS trails from `uId` to `tId`, one of minimal
hop count; `none` when no such trail exists. -/
def shortestKnowsTrail (db : GraphDB) (uId tId : String) : Option (List ℕ) :=
  ((trailsFrom db.edges 4 uId []).filterMap
    (fun tr => if tr.2 = tId ∧ tr.1 ≠ [] then some tr.1 else none)).foldl
    pickShorter none

/-- The node sequence of a trail (`nodes(path)`). -/
def walkNodes (es : List GEdge) : String → List ℕ → List String
  | cur, [] => [cur]
  | cur, i :: rest =>
    match es[i]? with
    | some e => cur :: walkNodes es (if e.src = cur then e.dst else e.src) rest
    | none => [cur]

/-- `r.strength || 0` for the edge at index `i`. -/
def edgeStrength (es : List GEdge) (i : ℕ) : ℚ :=
  match es[i]? with
  | some e => e.strength.getD 0
  | none => 0

/-- The `NetworkPath` record `findIntroPath` returns. -/
structure NetworkPath where
  sourceId : String
  targetId : String
  via : List String
  totalStrength : ℚ
deriving DecidableEq

/-- `findIntroPath`: null when the user or target node is missing (the
MATCH fails), when no KNOWS path of at most 4 hops exists, or when the
found path has fewer than two nodes; otherwise the ordered node sequence
plus the mean of the edge strengths (strengths default to 0). -/
def findIntroPath (db : GraphDB) (userId targetPersonId : String) :
    Option NetworkPath :=
  if nodeIsUser db userId ∧ nodeIsPerson db targetPersonId then
    match shortestKnowsTrail db userId targetPersonId with
    | none => none
    | some idxs =>
      let ns := walkNodes db.edges userId idxs
      if ns.length < 2 then none
      else some
        { sourceId := ns.head?.getD ""
          targetId := ns.getLast?.getD ""
          via := (ns.drop 1).dropLast
          totalStrength :=
            (idxs.map (edgeStrength db.edges)).sum / (idxs.length : ℚ) }
  else none

/-- Demonstration graph for the intro path: `u` – Alice – Tara, with
strengths 60 and null. -/
def introDemoDB : GraphDB :=
  { nodes :=
      [{ id := "u", isPerson := false, ownerId := none, email := "u@kue.app",
         name := "Owner", title := none, company := none },
       { id := "a", isPerson := true, ownerId := some "u", email := "a@x.com",
         name := "Alice", title := none, company := none },
       { id := "t", isPerson := true, ownerId := some "u", email := "t@z.com",
         name := "Tara", title := none, company := none }]
    edges :=
      [{ src := "u", dst := "a", etype := EdgeType.knows, strength := some 60 },
       { src := "a", dst := "t", etype := EdgeType.knows, strength := none }] }

/-- A graph with both endpoints present but no edges at all. -/
def emptyIntroDB : GraphDB :=
  { nodes :=
      [{ id := "u", isPerson := false, ownerId := none, email := "u@kue.app",
         name := "Owner", title := none, company := none },
       { id := "t", isPerson := true, ownerId := some "u", email := "t@z.com",
         name := "Tara", title := none, company := none }]
    edges := [] }

/-! ## Maintenance merge (`findAndMergeDuplicates` in `dedup.service.ts`) -/

/-- A stored Person node with the fields the maintenance queries touch. -/
structure PersonNode where
  id : String
  ownerId : String
  email : String
  firstName : Option String
  company : Option String
  source : List String
deriving DecidableEq

/-- The owner's subgraph state: Person nodes and the KueUser→Person KNOWS
edges (as (userId, personId) pairs; edge properties play no role in the
merge queries). -/
structure GraphState where
  persons : List PersonNode
  knows : List (String × String)
deriving DecidableEq

/-- `MATCH (p:Person {id: $i, ...})`. -/
def findPerson (st : GraphState) (i : String) : Option PersonNode :=
  st.persons.find? (fun p => p.id = i)

/-- One execution of the per-duplicate merge Cypher of
`mergePersonNodes`, following the query's row semantics clause by clause:
both MATCHes must succeed (else no-op); `SET` concatenates the dupe's
source list onto the kept node; `OPTIONAL MATCH` finds the users knowing
the dupe and `DELETE r` removes those edges; the subsequent
`WHERE u IS NOT NULL` filters the rows, so `MERGE (u)-[:KNOWS]->(keep)`
and the final `DETACH DELETE dupe` only execute when at least one user
knew the dupe — a dupe without any KNOWS edge is *not* deleted. -/
def mergeStep (userId keepId removeId : String) (st : GraphState) :
    GraphState :=
  match findPerson st keepId, findPerson st removeId with
  | some keep, some dupe =>
    if keep.ownerId = userId ∧ dupe.ownerId = userId then
      let persons1 := st.persons.map (fun p =>
        if p.id = keepId then { p with source := p.source ++ dupe.source }
        else p)
      let users := (st.knows.filter (fun e => e.2 = removeId)).map
        (fun e => e.1)
      let knows1 := st.knows.filter (fun e => ¬ e.2 = removeId)
      let knows2 := users.foldl (fun acc u =>
        if (u, keepId) ∈ acc then acc else acc ++ [(u, keepId)]) knows1
      let persons2 :=
        if users = [] then persons1
        else persons1.filter (fun p => ¬ p.id = removeId)
      { persons := persons2, knows := knows2 }
    else st
  | _, _ => st

/-- `mergePersonNodes`: keep the first id, merge every other id into it
one Cypher run at a time; fewer than two ids is a no-op. -/
def mergePersonNodes (userId : String) (personIds : List String)
    (st : GraphState) : GraphState :=
  match personIds with
  | [] => st
  | [_] => st
  | keepId :: removeIds =>
    removeIds.foldl (fun acc rid => mergeStep userId keepId rid acc) st

/-- The owner's Person nodes. -/
def ownerPersons (st : GraphState) (userId : String) : List PersonNode :=
  st.persons.filter (fun p => p.ownerId = userId)

/-- The same-email groups of the owner's Person nodes
(`WITH p.email AS email, collect(p) AS persons`). -/
def emailGroups (st : GraphState) (userId : String) :
    List (List PersonNode) :=
  ((ownerPersons st userId).map (fun p => p.email)).dedup.map
    (fun k => (ownerPersons st userId).filter (fun p => p.email = k))

/-- The email groups with more than one member (`WHERE size(persons) > 1`). -/
def oversizedEmailGroups (st : GraphState) (userId : String) :
    List (List PersonNode) :=
  (emailGroups st userId).filter (fun g => 1 < g.length)

/-- The fuzzy-duplicate key `toLower(p.firstName) + '|' + toLower(p.company)`
(absent when either field is null). -/
def nameKey (p : PersonNode) : Option String :=
  match p.firstName, p.company with
  | some fn, some co => some (jsToLower fn ++ "|" ++ jsToLower co)
  | _, _ => none

/-- The same-name-and-company candidate groups the maintenance pass only
logs (never merges). -/
def nameDupeGroups (st : GraphState) (userId : String) :
    List (List PersonNode) :=
  ((((ownerPersons st userId).filterMap nameKey).dedup).map
    (fun k => (ownerPersons st userId).filter
      (fun p => nameKey p = some k))).filter (fun g => 1 < g.length)

/-- `findAndMergeDuplicates`: merge every oversized same-email group into
its first member (the fuzzy name groups are only counted, performing no
write), returning the new state and the merged-nodes count. -/
def findAndMergeDuplicates (st : GraphState) (userId : String) :
    GraphState × ℕ :=
  (oversizedEmailGroups st userId).foldl
    (fun acc g =>
      (mergePersonNodes userId (g.map (fun p => p.id)) acc.1,
       acc.2 + (g.length - 1)))
    (st, 0)

/-- Failing input for the maintenance merge: `p1` and `p2` share an email
(and `p2` has no KNOWS edge), while `p3` and `p4` only share a
case-insensitive (firstName, company) pair. -/
def orphanP1 : PersonNode :=
  { id := "p1", ownerId := "u", email := "dup@x.com",
    firstName := some "Ann", company := some "Acme", source := ["gmail"] }

/-- The orphan duplicate: same email as `orphanP1`, no KNOWS edge. -/
def orphanP2 : PersonNode :=
  { id := "p2", ownerId := "u", email := "dup@x.com",
    firstName := some "Bob", company := some "Beta",
    source := ["linkedin"] }

/-- A name-duplicate candidate. -/
def orphanP3 : PersonNode :=
  { id := "p3", ownerId := "u", email := "c@x.com",
    firstName := some "Carl", company := some "Gamma", source := ["gmail"] }

/-- The other name-duplicate candidate (case-varied). -/
def orphanP4 : PersonNode :=
  { id := "p4", ownerId := "u", email := "d@x.com",
    firstName := some "carl", company := some "gamma", source := ["csv"] }

/-- The failing state: the owner knows `p1`, `p3` and `p4`, but not the
orphan duplicate `p2`. -/
def orphanDupState : GraphState :=
  { persons := [orphanP1, orphanP2, orphanP3, orphanP4]
    knows := [("u", "p1"), ("u", "p3"), ("u", "p4")] }

/-! ### Generic facts about two-decimal rounding -/

theorem round_mono_of_le {x y : ℝ} (h : x ≤ y) : round x ≤ round y := by
  rw [round_eq, round_eq]
  exact Int.floor_le_floor (by linarith)

theorem round2_nonneg {x : ℝ} (hx : 0 ≤ x) : 0 ≤ round2 x := by
  unfold round2
  have h : (0 : ℤ) ≤ round (x * 100) := by
    have := round_mono_of_le (show (0 : ℝ) ≤ x * 100 by nlinarith)
    simpa using this
  have : (0 : ℝ) ≤ ((round (x * 100) : ℤ) : ℝ) := by exact_mod_cast h
  linarith

theorem round_eq_of_bounds {x : ℝ} {n : ℤ} (h1 : (n : ℝ) - 1/2 ≤ x)
    (h2 : x < (n : ℝ) + 1/2) : round x = n := by
  rw [round_eq, Int.floor_eq_iff]
  refine ⟨by linarith, by linarith⟩

theorem round2_le_one {x : ℝ} (hx : x ≤ 1) : round2 x ≤ 1 := by
  unfold round2
  have h : round (x * 100) ≤ (100 : ℤ) := by
    have := round_mono_of_le (show x * 100 ≤ (100 : ℝ) by nlinarith)
    simpa using this
  have : ((round (x * 100) : ℤ) : ℝ) ≤ 100 := by exact_mod_cast h
  linarith

/-! ### Bounds of the raw sub-scores -/

theorem rawRecency_nonneg (d : ScoreInput) : 0 ≤ rawRecency d := by
  unfold rawRecency
  cases d.lastContact with
  | none => exact le_refl 0
  | some lc => exact Real.sqrt_nonneg _

theorem rawRecency_le_one (d : ScoreInput)
    (h : ∀ t ∈ d.lastContact, t ≤ d.now) : rawRecency d ≤ 1 := by
  unfold rawRecency
  cases hlc : d.lastContact with
  | none => norm_num
  | some lc =>
    have hle : lc ≤ d.now := h lc (by rw [hlc]; rfl)
    have hms : (0 : ℝ) < msPerDay := by norm_num [msPerDay]
    have hdays : 0 ≤ (d.now - lc) / msPerDay :=
      div_nonneg (by linarith) hms.le
    dsimp only
    rw [Real.sqrt_le_one]
    have h2 : 0 ≤ (d.now - lc) / msPerDay / RECENCY_MAX_DAYS := by
      unfold RECENCY_MAX_DAYS
      positivity
    simp only [max_le_iff]
    constructor <;> linarith

theorem rawFrequency_nonneg (d : ScoreInput) : 0 ≤ rawFrequency d := by
  unfold rawFrequency
  split
  · have hc : (0 : ℝ) ≤ (d.interactionCount : ℝ) := Nat.cast_nonneg _
    have hlog1 : 0 ≤ Real.log ((d.interactionCount : ℝ) + 1) :=
      Real.log_nonneg (by linarith)
    have hlog2 : 0 < Real.log (FREQUENCY_MAX + 1) := by
      unfold FREQUENCY_MAX
      exact Real.log_pos (by norm_num)
    have : 0 ≤ Real.log ((d.interactionCount : ℝ) + 1) /
        Real.log (FREQUENCY_MAX + 1) := by positivity
    exact le_min (by norm_num) this
  · exact le_refl 0

theorem rawFrequency_le_one (d : ScoreInput) : rawFrequency d ≤ 1 := by
  unfold rawFrequency
  split
  · exact min_le_left _ _
  · norm_num

theorem rawReciprocity_nonneg (d : ScoreInput) : 0 ≤ rawReciprocity d := by
  unfold rawReciprocity
  split
  · refine le_min (by norm_num) ?_
    have h1 : (0 : ℝ) ≤ ((min d.emailsSent d.emailsReceived : ℕ) : ℝ) /
        ((max d.emailsSent d.emailsReceived : ℕ) : ℝ) := by positivity
    have h2 : (0 : ℝ) ≤ (if 0 < d.meetingCount then (0.2 : ℝ) else 0) := by
      split <;> norm_num
    linarith
  · split <;> norm_num

theorem rawReciprocity_le_one (d : ScoreInput) : rawReciprocity d ≤ 1 := by
  unfold rawReciprocity
  split
  · exact min_le_left _ _
  · split <;> norm_num

theorem rawDiversity_nonneg (d : ScoreInput) : 0 ≤ rawDiversity d := by
  unfold rawDiversity
  dsimp only
  refine le_min (by norm_num) ?_
  positivity

theorem rawDiversity_le_one (d : ScoreInput) : rawDiversity d ≤ 1 := by
  unfold rawDiversity
  dsimp only
  exact min_le_left _ _

theorem rawDuration_nonneg (d : ScoreInput)
    (h : ∀ t ∈ d.firstContact, t ≤ d.now) : 0 ≤ rawDuration d := by
  unfold rawDuration
  cases hfc : d.firstContact with
  | none => exact le_refl 0
  | some fc =>
    have hle : fc ≤ d.now := h fc (by rw [hfc]; rfl)
    have hms : (0 : ℝ) < msPerDay := by norm_num [msPerDay]
    dsimp only
    refine le_min (by norm_num) ?_
    unfold DURATION_MAX_DAYS
    exact div_nonneg (div_nonneg (by linarith) hms.le) (by norm_num)

theorem rawDuration_le_one (d : ScoreInput) : rawDuration d ≤ 1 := by
  unfold rawDuration
  cases d.firstContact with
  | none => norm_num
  | some fc => exact min_le_left _ _

theorem compositeScore_bounds (b : Breakdown)
    (hr : 0 ≤ b.recency ∧ b.recency ≤ 1)
    (hf : 0 ≤ b.frequency ∧ b.frequency ≤ 1)
    (hc : 0 ≤ b.reciprocity ∧ b.reciprocity ≤ 1)
    (hd : 0 ≤ b.diversity ∧ b.diversity ≤ 1)
    (hu : 0 ≤ b.duration ∧ b.duration ≤ 1) :
    0 ≤ computeCompositeScore b ∧ computeCompositeScore b ≤ 100 := by
  unfold computeCompositeScore
  dsimp only
  set s : ℝ := b.recency * WEIGHTS.recency + b.frequency * WEIGHTS.frequency +
    b.reciprocity * WEIGHTS.reciprocity + b.diversity * WEIGHTS.diversity +
    b.duration * WEIGHTS.duration with hs
  have hw : WEIGHTS.recency = 0.3 ∧ WEIGHTS.frequency = 0.3 ∧
      WEIGHTS.reciprocity = 0.2 ∧ WEIGHTS.diversity = 0.1 ∧
      WEIGHTS.duration = 0.1 := by norm_num [WEIGHTS]
  obtain ⟨w1, w2, w3, w4, w5⟩ := hw
  have hs0 : 0 ≤ s := by rw [hs, w1, w2, w3, w4, w5]; nlinarith [hr.1, hf.1, hc.1, hd.1, hu.1]
  have hs1 : s ≤ 1 := by rw [hs, w1, w2, w3, w4, w5]; nlinarith [hr.2, hf.2, hc.2, hd.2, hu.2]
  constructor
  · have h : (0 : ℤ) ≤ round (s * 100 * 100) := by
      have := round_mono_of_le (show (0 : ℝ) ≤ s * 100 * 100 by nlinarith)
      simpa using this
    have : (0 : ℝ) ≤ ((round (s * 100 * 100) : ℤ) : ℝ) := by exact_mod_cast h
    linarith
  · have h : round (s * 100 * 100) ≤ (10000 : ℤ) := by
      have := round_mono_of_le (show s * 100 * 100 ≤ (10000 : ℝ) by nlinarith)
      simpa using this
    have : ((round (s * 100 * 100) : ℤ) : ℝ) ≤ 10000 := by exact_mod_cast h
    linarith

end Kue

open Kue

/-- C1: for every scored KNOWS edge, the composite score equals 100 times
the weighted sum of the five sub-scores with the fixed weights 0.30, 0.30,
0.20, 0.10, 0.10 (which sum to 1.0), each sub-score having been rounded to
2 decimals before weighting, and the composite itself rounded to 2
decimals. -/
theorem composite_score_matches_spec_formula (d : ScoreInput) :
    computeCompositeScore (calculateBreakdown d) =
      specCompositeFormula (calculateBreakdown d) ∧
    calculateBreakdown d =
      { recency := round2 (rawRecency d)
        frequency := round2 (rawFrequency d)
        reciprocity := round2 (rawReciprocity d)
        diversity := round2 (rawDiversity d)
        duration := round2 (rawDuration d) } ∧
    WEIGHTS.recency = 0.30 ∧ WEIGHTS.frequency = 0.30 ∧
    WEIGHTS.reciprocity = 0.20 ∧ WEIGHTS.diversity = 0.10 ∧
    WEIGHTS.duration = 0.10 ∧
    WEIGHTS.recency + WEIGHTS.frequency + WEIGHTS.reciprocity +
      WEIGHTS.diversity + WEIGHTS.duration = 1 := by
  refine ⟨?_, rfl, by norm_num [WEIGHTS], by norm_num [WEIGHTS],
    by norm_num [WEIGHTS], by norm_num [WEIGHTS], by norm_num [WEIGHTS],
    by norm_num [WEIGHTS]⟩
  generalize calculateBreakdown d = b
  show ((round ((b.recency * WEIGHTS.recency + b.frequency * WEIGHTS.frequency +
      b.reciprocity * WEIGHTS.reciprocity + b.diversity * WEIGHTS.diversity +
      b.duration * WEIGHTS.duration) * 100 * 100) : ℤ) : ℝ) / 100 =
    round2 (100 * (0.30 * b.recency + 0.30 * b.frequency +
      0.20 * b.reciprocity + 0.10 * b.diversity + 0.10 * b.duration))
  unfold round2 WEIGHTS
  norm_num
  congr 2
  ring_nf

/-- C2 (amended): when the recorded contact dates do not lie in the future
of the scoring wall clock, the composite score lies in [0, 100] and every
breakdown component lies in [0, 1].  (The unamended claim, for arbitrary
dates, is refuted by `recency_component_exceeds_one_for_future_lastContact`.) -/
theorem scoring_bounds_hold_for_past_contact_dates (d : ScoreInput)
    (hl : ∀ t ∈ d.lastContact, t ≤ d.now)
    (hf : ∀ t ∈ d.firstContact, t ≤ d.now) :
    (0 ≤ (calculateBreakdown d).recency ∧ (calculateBreakdown d).recency ≤ 1) ∧
    (0 ≤ (calculateBreakdown d).frequency ∧ (calculateBreakdown d).frequency ≤ 1) ∧
    (0 ≤ (calculateBreakdown d).reciprocity ∧ (calculateBreakdown d).reciprocity ≤ 1) ∧
    (0 ≤ (calculateBreakdown d).diversity ∧ (calculateBreakdown d).diversity ≤ 1) ∧
    (0 ≤ (calculateBreakdown d).duration ∧ (calculateBreakdown d).duration ≤ 1) ∧
    (0 ≤ computeCompositeScore (calculateBreakdown d) ∧
      computeCompositeScore (calculateBreakdown d) ≤ 100) := by
  have hr : 0 ≤ (calculateBreakdown d).recency ∧ (calculateBreakdown d).recency ≤ 1 :=
    ⟨round2_nonneg (rawRecency_nonneg d), round2_le_one (rawRecency_le_one d hl)⟩
  have hq : 0 ≤ (calculateBreakdown d).frequency ∧ (calculateBreakdown d).frequency ≤ 1 :=
    ⟨round2_nonneg (rawFrequency_nonneg d), round2_le_one (rawFrequency_le_one d)⟩
  have hc : 0 ≤ (calculateBreakdown d).reciprocity ∧ (calculateBreakdown d).reciprocity ≤ 1 :=
    ⟨round2_nonneg (rawReciprocity_nonneg d), round2_le_one (rawReciprocity_le_one d)⟩
  have hv : 0 ≤ (calculateBreakdown d).diversity ∧ (calculateBreakdown d).diversity ≤ 1 :=
    ⟨round2_nonneg (rawDiversity_nonneg d), round2_le_one (rawDiversity_le_one d)⟩
  have hu : 0 ≤ (calculateBreakdown d).duration ∧ (calculateBreakdown d).duration ≤ 1 :=
    ⟨round2_nonneg (rawDuration_nonneg d hf), round2_le_one (rawDuration_le_one d)⟩
  exact ⟨hr, hq, hc, hv, hu, compositeScore_bounds _ hr hq hc hv hu⟩

/-- Witness for C2 (amended) at the empty interaction record. -/
theorem scoring_bounds_hold_witness :
    (0 ≤ (calculateBreakdown emptyScoreInput).recency ∧
      (calculateBreakdown emptyScoreInput).recency ≤ 1) ∧
    (0 ≤ (calculateBreakdown emptyScoreInput).frequency ∧
      (calculateBreakdown emptyScoreInput).frequency ≤ 1) ∧
    (0 ≤ (calculateBreakdown emptyScoreInput).reciprocity ∧
      (calculateBreakdown emptyScoreInput).reciprocity ≤ 1) ∧
    (0 ≤ (calculateBreakdown emptyScoreInput).diversity ∧
      (calculateBreakdown emptyScoreInput).diversity ≤ 1) ∧
    (0 ≤ (calculateBreakdown emptyScoreInput).duration ∧
      (calculateBreakdown emptyScoreInput).duration ≤ 1) ∧
    (0 ≤ computeCompositeScore (calculateBreakdown emptyScoreInput) ∧
      computeCompositeScore (calculateBreakdown emptyScoreInput) ≤ 100) :=
  scoring_bounds_hold_for_past_contact_dates emptyScoreInput
    (by simp [emptyScoreInput]) (by simp [emptyScoreInput])

/-- C2 counterexample: with a `lastContact` three years in the future of
the wall clock, `calculateBreakdown` yields a recency component of `2`,
outside [0, 1], refuting the claim for arbitrary dates. -/
theorem recency_component_exceeds_one_for_future_lastContact :
    (calculateBreakdown futureContactInput).recency = 2 ∧
    ¬ ((calculateBreakdown futureContactInput).recency ≤ 1) := by
  have hraw : rawRecency futureContactInput = 2 := by
    unfold rawRecency futureContactInput
    dsimp only
    have hms : msPerDay = 86400000 := by norm_num [msPerDay]
    rw [hms]
    unfold RECENCY_MAX_DAYS
    norm_num
    rw [show ((4 : ℝ) = 2 ^ 2) by norm_num, Real.sqrt_sq (by norm_num)]
  have h2 : (calculateBreakdown futureContactInput).recency = 2 := by
    show round2 (rawRecency futureContactInput) = 2
    rw [hraw]
    unfold round2
    norm_num
  exact ⟨h2, by rw [h2]; norm_num⟩

/-! ### Evaluation of the worked scenario of the specification -/

theorem scenario_rawRecency : rawRecency scenarioInput = Real.sqrt (71/73) := by
  unfold rawRecency scenarioInput
  dsimp only
  have hms : msPerDay = 86400000 := by norm_num [msPerDay]
  rw [hms]
  unfold RECENCY_MAX_DAYS
  norm_num

theorem scenario_recency : round2 (rawRecency scenarioInput) = 99/100 := by
  rw [scenario_rawRecency]
  have hlow : (0.985 : ℝ) ≤ Real.sqrt (71/73) := by
    rw [Real.le_sqrt (by norm_num) (by norm_num)]
    norm_num
  have hhigh : Real.sqrt (71/73) < 0.995 := by
    rw [Real.sqrt_lt' (by norm_num)]
    norm_num
  unfold round2
  rw [show round (Real.sqrt (71/73) * 100) = (99 : ℤ) from
    round_eq_of_bounds (by push_cast; nlinarith) (by push_cast; nlinarith)]
  norm_num

theorem log_ratio_bounds :
    (159/200 : ℝ) ≤ Real.log 41 / Real.log 101 ∧
    Real.log 41 / Real.log 101 < (161/200 : ℝ) := by
  have h101 : (0 : ℝ) < Real.log 101 := Real.log_pos (by norm_num)
  have hp1 : ((101 : ℝ) ^ (159 : ℕ)) ≤ ((41 : ℝ) ^ (200 : ℕ)) := by norm_num
  have hp2 : ((41 : ℝ) ^ (200 : ℕ)) < ((101 : ℝ) ^ (161 : ℕ)) := by norm_num
  have hl1 : (159 : ℝ) * Real.log 101 ≤ 200 * Real.log 41 := by
    have := (Real.log_le_log_iff (by positivity) (by positivity)).mpr hp1
    rwa [Real.log_pow, Real.log_pow] at this
  have hl2 : (200 : ℝ) * Real.log 41 < 161 * Real.log 101 := by
    have := Real.log_lt_log (by positivity) hp2
    rwa [Real.log_pow, Real.log_pow] at this
  constructor
  · rw [div_le_div_iff₀ (by norm_num) h101]
    linarith
  · rw [div_lt_div_iff₀ h101 (by norm_num)]
    linarith

theorem scenario_rawFrequency :
    rawFrequency scenarioInput = Real.log 41 / Real.log 101 := by
  unfold rawFrequency scenarioInput FREQUENCY_MAX
  norm_num
  have h101 : (0 : ℝ) < Real.log 101 := Real.log_pos (by norm_num)
  have hratio : Real.log 41 / Real.log 101 ≤ 1 := by
    rw [div_le_one h101]
    exact (Real.log_le_log_iff (by norm_num) (by norm_num)).mpr (by norm_num)
  exact hratio

theorem scenario_frequency : round2 (rawFrequency scenarioInput) = 4/5 := by
  rw [scenario_rawFrequency]
  obtain ⟨hl, hh⟩ := log_ratio_bounds
  unfold round2
  rw [show round (Real.log 41 / Real.log 101 * 100) = (80 : ℤ) from
    round_eq_of_bounds (by push_cast; nlinarith) (by push_cast; nlinarith)]
  norm_num

theorem scenario_rawReciprocity : rawReciprocity scenarioInput = 1 := by
  unfold rawReciprocity scenarioInput
  dsimp only
  rw [show (min 20 18 : ℕ) = 18 from rfl, show (max 20 18 : ℕ) = 20 from rfl]
  norm_num [min_def]

theorem scenario_rawDiversity : rawDiversity scenarioInput = 1/2 := by
  unfold rawDiversity scenarioInput
  dsimp only
  rw [show (["gmail", "calendar"] : List String).dedup = ["gmail", "calendar"] by decide]
  rw [show (([decide (0 < 20 + 18), decide (0 < 2),
      (["gmail", "calendar"] : List String).contains "linkedin",
      (["gmail", "calendar"] : List String).contains "google_contacts"].filter id).length : ℕ)
    = 2 by decide]
  norm_num [min_def]

theorem scenario_rawDuration : rawDuration scenarioInput = 2/5 := by
  unfold rawDuration scenarioInput
  dsimp only
  have hms : msPerDay = 86400000 := by norm_num [msPerDay]
  rw [hms]
  unfold DURATION_MAX_DAYS
  norm_num [min_def]

theorem scenario_breakdown :
    calculateBreakdown scenarioInput =
      { recency := 99/100
        frequency := 4/5
        reciprocity := 1
        diversity := 1/2
        duration := 2/5 } := by
  unfold calculateBreakdown
  rw [scenario_rawReciprocity, scenario_rawDiversity, scenario_rawDuration]
  rw [show round2 (rawRecency scenarioInput) = 99/100 from scenario_recency,
    show round2 (rawFrequency scenarioInput) = 4/5 from scenario_frequency]
  have h1 : round2 (1 : ℝ) = 1 := by unfold round2; norm_num
  have h2 : round2 (1/2 : ℝ) = 1/2 := by unfold round2; norm_num
  have h3 : round2 (2/5 : ℝ) = 2/5 := by unfold round2; norm_num
  rw [h1, h2, h3]

theorem scenario_composite :
    computeCompositeScore (calculateBreakdown scenarioInput) = 827/10 := by
  rw [scenario_breakdown]
  unfold computeCompositeScore WEIGHTS
  norm_num

/-- C9 counterexample: at the specification's worked scenario the composite
score the code produces is 82.7, not approximately 68.6 — it misses the
claimed value by 14.1 points. -/
theorem scenario_composite_not_68_6 :
    computeCompositeScore (calculateBreakdown scenarioInput) = 82.7 ∧
    ¬ (|computeCompositeScore (calculateBreakdown scenarioInput) - 68.6| ≤ 5) := by
  have h := scenario_composite
  constructor
  · rw [h]; norm_num
  · rw [h]; rw [abs_le]; push_neg; intro; norm_num

/-- C9 (amended): at the worked scenario the sub-scores are
recency = 0.99 (> 0.85), frequency = round of ln(41)/ln(101) = 0.80,
reciprocity capped at 1.0, diversity = 0.5, duration = 730/1825 = 0.40,
and the composite score is 82.7 (not ≈ 68.6 as the claim stated). -/
theorem scenario_scores_match_code :
    (calculateBreakdown scenarioInput).recency = 0.99 ∧
    (calculateBreakdown scenarioInput).recency > 0.85 ∧
    rawFrequency scenarioInput = Real.log 41 / Real.log 101 ∧
    (calculateBreakdown scenarioInput).frequency = 0.80 ∧
    (calculateBreakdown scenarioInput).reciprocity = 1 ∧
    (calculateBreakdown scenarioInput).diversity = 0.5 ∧
    (calculateBreakdown scenarioInput).duration = 730/1825 ∧
    computeCompositeScore (calculateBreakdown scenarioInput) = 82.7 := by
  have hb := scenario_breakdown
  refine ⟨?_, ?_, scenario_rawFrequency, ?_, ?_, ?_, ?_,
    by rw [scenario_composite]; norm_num⟩ <;> rw [hb] <;> norm_num

/-- C8: scoring is idempotent.  A second `scoreContact` call on the state
the first call wrote — with the same raw counters and wall clock — returns
the same score and leaves the edge unchanged; the stored strength and
breakdown are never inputs of the computation; and a repeated
`scoreAllContacts` run maps the stored state to itself. -/
theorem scoring_is_idempotent (now : ℝ) (e : KnowsEdge) (es : List KnowsEdge) :
    scoreOne now (scoreOne now e).1 = scoreOne now e ∧
    (∀ s b, (scoreOne now
      { e with strength := s, scoreBreakdown := b }).2 = (scoreOne now e).2) ∧
    scoreAllState now (scoreAllState now es) = scoreAllState now es := by
  have hkey : ∀ f : KnowsEdge, scoreOne now (scoreOne now f).1 = scoreOne now f := by
    intro f
    rfl
  refine ⟨hkey e, fun s b => rfl, ?_⟩
  unfold scoreAllState
  rw [List.map_map]
  apply List.map_congr_left
  intro f _
  show (scoreOne now (scoreOne now f).1).1 = (scoreOne now f).1
  rw [hkey f]

/-- C10: with no KNOWS edges the fetch is empty and `scoreAllContacts`
returns `{scored: 0, averageScore: 0}` through the early-return guard,
issuing no score writes; for a non-empty fetch the average divides by the
scored-record count, which is non-zero. -/
theorem scoreAll_empty_returns_zero_without_writes :
    (∀ now, scoreAllContacts now [] = ({ scored := 0, averageScore := 0 }, [])) ∧
    (∀ now records, records ≠ [] →
      ((records.map (scoreRecord now)).length : ℝ) ≠ 0 ∧
      (scoreAllContacts now records).1.averageScore =
        round2 (((records.map (scoreRecord now)).map (fun sr => sr.score)).sum /
          ((records.map (scoreRecord now)).length : ℝ))) := by
  constructor
  · intro now
    unfold scoreAllContacts
    simp
  · intro now records hne
    have hlen : records.length ≠ 0 := by
      exact Nat.pos_iff_ne_zero.mp (List.length_pos.mpr hne)
    constructor
    · simp [hne]
    · unfold scoreAllContacts
      simp only [hlen, if_neg, List.length_map, List.map_map]
      rfl

/-- Witness for C10 at a one-record fetch. -/
theorem scoreAll_empty_returns_zero_witness :
    (([emptyFetchedRecord].map (scoreRecord 0)).length : ℝ) ≠ 0 ∧
    (scoreAllContacts 0 [emptyFetchedRecord]).1.averageScore =
      round2 ((([emptyFetchedRecord].map (scoreRecord 0)).map
        (fun sr => sr.score)).sum /
        (([emptyFetchedRecord].map (scoreRecord 0)).length : ℝ)) :=
  scoreAll_empty_returns_zero_without_writes.2 0 [emptyFetchedRecord] (by simp)

/-! ### Batch-internal dedup: one record per email key, last-non-null fields -/

theorem emailKey_mergeContacts (r c : Contact) :
    emailKey (mergeContacts r c) = emailKey r := rfl

theorem emailKey_collapseGroup (rest : List Contact) (c0 : Contact) :
    emailKey (collapseGroup c0 rest) = emailKey c0 := by
  induction rest generalizing c0 with
  | nil => rfl
  | cons r rest ih =>
    show emailKey (collapseGroup (mergeContacts c0 r) rest) = emailKey c0
    rw [ih (mergeContacts c0 r)]
    rfl

theorem collapseGroup_append (c0 : Contact) (rest : List Contact) (c : Contact) :
    collapseGroup c0 (rest ++ [c]) = mergeContacts (collapseGroup c0 rest) c := by
  unfold collapseGroup
  rw [List.foldl_append]
  rfl

theorem internalDedup_append (cs : List Contact) (c : Contact) :
    internalDedup (cs ++ [c]) = insertMerge (internalDedup cs) c := by
  unfold internalDedup
  rw [List.foldl_append]
  rfl

theorem filter_update (D : List Contact) (c : Contact) (k : String) :
    (D.map (fun r => if emailKey r = emailKey c then mergeContacts r c else r)).filter
      (fun r => emailKey r = k) =
    (D.filter (fun r => emailKey r = k)).map
      (fun r => if emailKey r = emailKey c then mergeContacts r c else r) := by
  induction D with
  | nil => rfl
  | cons a D ih =>
    have hk : emailKey (if emailKey a = emailKey c then mergeContacts a c else a) =
        emailKey a := by
      split <;> rfl
    simp only [List.map_cons, List.filter_cons, hk]
    by_cases h : emailKey a = k
    · simp [h, ih]
    · simp [h, ih]

theorem internalDedup_filter (cs : List Contact) (k : String) :
    (internalDedup cs).filter (fun r => emailKey r = k) =
      match cs.filter (fun r => emailKey r = k) with
      | [] => []
      | c0 :: rest => [collapseGroup c0 rest] := by
  induction cs using List.reverseRecOn with
  | nil => rfl
  | append_singleton cs c ih =>
    rw [internalDedup_append, List.filter_append]
    unfold insertMerge
    by_cases hk : emailKey c = k
    · subst hk
      have hcself : ([c].filter (fun r => emailKey r = emailKey c)) = [c] := by
        simp [List.filter]
      cases hcs : cs.filter (fun r => emailKey r = emailKey c) with
      | nil =>
        have hD : (internalDedup cs).filter
            (fun r => emailKey r = emailKey c) = [] := by
          rw [ih, hcs]
        have hnone : ∀ r ∈ internalDedup cs, ¬ (emailKey r = emailKey c) := by
          intro r hr hkey
          have hmem : r ∈ (internalDedup cs).filter
              (fun r => emailKey r = emailKey c) :=
            List.mem_filter.mpr ⟨hr, by simpa using hkey⟩
          rw [hD] at hmem
          simp at hmem
        have hany : (internalDedup cs).any
            (fun r => emailKey r = emailKey c) = false := by
          rw [List.any_eq_false]
          intro r hr
          simpa using hnone r hr
        simp only [hany, Bool.false_eq_true, if_false, List.filter_append]
        rw [hcself, hD]
        rfl
      | cons c0 rest =>
        have hD : (internalDedup cs).filter
            (fun r => emailKey r = emailKey c) = [collapseGroup c0 rest] := by
          rw [ih, hcs]
        have hmem : collapseGroup c0 rest ∈ (internalDedup cs).filter
            (fun r => emailKey r = emailKey c) := by
          rw [hD]
          exact List.mem_singleton.mpr rfl
        have hany : (internalDedup cs).any
            (fun r => emailKey r = emailKey c) = true := by
          rw [List.any_eq_true]
          exact ⟨collapseGroup c0 rest, List.mem_of_mem_filter hmem,
            (List.mem_filter.mp hmem).2⟩
        simp only [hany, if_true]
        rw [filter_update, hD]
        have hc0 : emailKey c0 = emailKey c := by
          have hmem0 : c0 ∈ cs.filter (fun r => emailKey r = emailKey c) := by
            rw [hcs]
            exact List.mem_cons_self c0 rest
          simpa using (List.mem_filter.mp hmem0).2
        have hcond : emailKey (collapseGroup c0 rest) = emailKey c := by
          rw [emailKey_collapseGroup]
          exact hc0
        simp only [List.map_cons, List.map_nil, hcond, if_true]
        rw [← collapseGroup_append]
        rw [hcself]
        rfl
    · have hc : ([c].filter (fun r => emailKey r = k)) = [] := by
        simp [List.filter, hk]
      rw [hc, List.append_nil]
      by_cases hany : (internalDedup cs).any (fun r => emailKey r = emailKey c) = true
      · simp only [hany, if_true]
        rw [filter_update]
        have h1 : ∀ r ∈ (internalDedup cs).filter (fun r => emailKey r = k),
            (if emailKey r = emailKey c then mergeContacts r c else r) = id r := by
          intro r hr
          have hrk : emailKey r = k := by
            simpa using (List.mem_filter.mp hr).2
          rw [if_neg, id_eq]
          rw [hrk]
          intro h
          exact hk h.symm
        rw [List.map_congr_left h1, List.map_id, ih]
      · have hany2 : (internalDedup cs).any
            (fun r => emailKey r = emailKey c) = false := by
          simpa using hany
        simp only [hany2, Bool.false_eq_true, if_false, List.filter_append]
        rw [hc, List.append_nil, ih]

theorem orElse_none (o : Option String) : (o.orElse fun _ => none) = o := by
  cases o <;> rfl

theorem lastNonNull_cons (a : Option String) (l : List (Option String)) :
    lastNonNull (a :: l) = l.foldl (fun acc o => o.orElse (fun _ => acc)) a := by
  unfold lastNonNull
  show l.foldl _ (a.orElse fun _ => none) = _
  rw [orElse_none]

theorem collapseGroup_field (f : Contact → Option String)
    (hf : ∀ r c, f (mergeContacts r c) = (f c).orElse (fun _ => f r)) :
    ∀ (rest : List Contact) (c0 : Contact),
      f (collapseGroup c0 rest) = lastNonNull ((c0 :: rest).map f) := by
  intro rest
  induction rest with
  | nil =>
    intro c0
    rw [List.map_cons, List.map_nil, lastNonNull_cons]
    rfl
  | cons r rest ih =>
    intro c0
    show f (collapseGroup (mergeContacts c0 r) rest) = _
    rw [ih (mergeContacts c0 r)]
    rw [List.map_cons, List.map_cons, List.map_cons, lastNonNull_cons,
      lastNonNull_cons, hf]
    rfl

theorem collapseGroup_email (rest : List Contact) (c0 : Contact) :
    (collapseGroup c0 rest).email = c0.email := by
  induction rest generalizing c0 with
  | nil => rfl
  | cons r rest ih =>
    show (collapseGroup (mergeContacts c0 r) rest).email = c0.email
    rw [ih (mergeContacts c0 r)]
    rfl

theorem collapseGroup_source (rest : List Contact) (c0 : Contact) :
    (collapseGroup c0 rest).source = c0.source := by
  induction rest generalizing c0 with
  | nil => rfl
  | cons r rest ih =>
    show (collapseGroup (mergeContacts c0 r) rest).source = c0.source
    rw [ih (mergeContacts c0 r)]
    rfl

theorem dedupStep2_passthrough (g : GraphLookup) (c : Contact)
    (hph : isPlaceholder c = false) (hmail : g.byEmail c.email = none) :
    dedupStep2 g c = some c := by
  unfold dedupStep2
  rw [hph, hmail]
  rfl

/-- C4 counterexample: two same-email contacts with sources gmail then
linkedin collapse to one record whose `source` is the *first* record's
"gmail", not the last non-null value "linkedin" observed across the
group — `mergeContacts` keeps the existing source (and email), so not
every field takes the last non-null value. -/
theorem dedup_source_field_not_last_non_null :
    (deduplicateContacts emptyLookup [contactA, contactB]).map
      (fun c => c.source) = ["gmail"] ∧
    lastNonNull ([contactA, contactB].map (fun c => some c.source)) =
      some "linkedin" ∧
    ("gmail" : String) ≠ "linkedin" := by
  refine ⟨by decide, by decide, by decide⟩

/-- C4 (amended): every same-key group of an ingestion batch collapses,
in input order, to exactly one record; its fields other than email and
source are the last non-null values observed across the group, while its
email and source are the first record's; when that record's email is not
a placeholder and matches no existing graph contact it passes to the
output unchanged. -/
theorem email_group_collapses_to_one_record (g : GraphLookup)
    (cs : List Contact) (k : String) (c0 : Contact) (rest : List Contact)
    (hgrp : cs.filter (fun c => emailKey c = k) = c0 :: rest)
    (hph : isPlaceholder (collapseGroup c0 rest) = false)
    (hmail : g.byEmail (collapseGroup c0 rest).email = none) :
    (internalDedup cs).filter (fun r => emailKey r = k) =
      [collapseGroup c0 rest] ∧
    dedupStep2 g (collapseGroup c0 rest) = some (collapseGroup c0 rest) ∧
    collapseGroup c0 rest ∈ deduplicateContacts g cs ∧
    (collapseGroup c0 rest).email = c0.email ∧
    (collapseGroup c0 rest).source = c0.source ∧
    (collapseGroup c0 rest).name =
      lastNonNull ((c0 :: rest).map (fun c => c.name)) ∧
    (collapseGroup c0 rest).firstName =
      lastNonNull ((c0 :: rest).map (fun c => c.firstName)) ∧
    (collapseGroup c0 rest).lastName =
      lastNonNull ((c0 :: rest).map (fun c => c.lastName)) ∧
    (collapseGroup c0 rest).phone =
      lastNonNull ((c0 :: rest).map (fun c => c.phone)) ∧
    (collapseGroup c0 rest).company =
      lastNonNull ((c0 :: rest).map (fun c => c.company)) ∧
    (collapseGroup c0 rest).title =
      lastNonNull ((c0 :: rest).map (fun c => c.title)) ∧
    (collapseGroup c0 rest).linkedinUrl =
      lastNonNull ((c0 :: rest).map (fun c => c.linkedinUrl)) := by
  have hfilter : (internalDedup cs).filter (fun r => emailKey r = k) =
      [collapseGroup c0 rest] := by
    rw [internalDedup_filter cs k, hgrp]
  have hpass : dedupStep2 g (collapseGroup c0 rest) =
      some (collapseGroup c0 rest) :=
    dedupStep2_passthrough g _ hph hmail
  have hmem : collapseGroup c0 rest ∈ internalDedup cs := by
    have : collapseGroup c0 rest ∈
        (internalDedup cs).filter (fun r => emailKey r = k) := by
      rw [hfilter]
      exact List.mem_singleton.mpr rfl
    exact List.mem_of_mem_filter this
  refine ⟨hfilter, hpass, ?_, collapseGroup_email rest c0,
    collapseGroup_source rest c0,
    collapseGroup_field (fun c => c.name) (fun _ _ => rfl) rest c0,
    collapseGroup_field (fun c => c.firstName) (fun _ _ => rfl) rest c0,
    collapseGroup_field (fun c => c.lastName) (fun _ _ => rfl) rest c0,
    collapseGroup_field (fun c => c.phone) (fun _ _ => rfl) rest c0,
    collapseGroup_field (fun c => c.company) (fun _ _ => rfl) rest c0,
    collapseGroup_field (fun c => c.title) (fun _ _ => rfl) rest c0,
    collapseGroup_field (fun c => c.linkedinUrl) (fun _ _ => rfl) rest c0⟩
  exact List.mem_filterMap.mpr ⟨collapseGroup c0 rest, hmem, hpass⟩

/-- Witness for C4 (amended) on the two-contact batch against an empty
graph. -/
theorem email_group_collapses_witness :
    (internalDedup [contactA, contactB]).filter
      (fun r => emailKey r = "a@x.com") = [collapseGroup contactA [contactB]] ∧
    dedupStep2 emptyLookup (collapseGroup contactA [contactB]) =
      some (collapseGroup contactA [contactB]) ∧
    collapseGroup contactA [contactB] ∈
      deduplicateContacts emptyLookup [contactA, contactB] ∧
    (collapseGroup contactA [contactB]).email = contactA.email ∧
    (collapseGroup contactA [contactB]).source = contactA.source ∧
    (collapseGroup contactA [contactB]).name =
      lastNonNull ([contactA, contactB].map (fun c => c.name)) ∧
    (collapseGroup contactA [contactB]).firstName =
      lastNonNull ([contactA, contactB].map (fun c => c.firstName)) ∧
    (collapseGroup contactA [contactB]).lastName =
      lastNonNull ([contactA, contactB].map (fun c => c.lastName)) ∧
    (collapseGroup contactA [contactB]).phone =
      lastNonNull ([contactA, contactB].map (fun c => c.phone)) ∧
    (collapseGroup contactA [contactB]).company =
      lastNonNull ([contactA, contactB].map (fun c => c.company)) ∧
    (collapseGroup contactA [contactB]).title =
      lastNonNull ([contactA, contactB].map (fun c => c.title)) ∧
    (collapseGroup contactA [contactB]).linkedinUrl =
      lastNonNull ([contactA, contactB].map (fun c => c.linkedinUrl)) :=
  email_group_collapses_to_one_record emptyLookup [contactA, contactB]
    "a@x.com" contactA [contactB] (by decide) (by decide) rfl

/-! ### Placeholder-email handling -/

theorem isPlaceholder_enrich (m c : Contact) :
    isPlaceholder (enrichExistingContact m c) = isPlaceholder m := rfl

theorem dedupStep2_placeholder_no_names (g : GraphLookup) (c : Contact)
    (hph : isPlaceholder c = true)
    (hnc : c.firstName = none ∨ c.company = none) :
    dedupStep2 g c = none := by
  unfold dedupStep2
  rw [hph]
  cases hfn : c.firstName with
  | none =>
    cases hco : c.company <;> rfl
  | some fn =>
    cases hco : c.company with
    | none => rfl
    | some co =>
      rcases hnc with h | h
      · rw [hfn] at h
        cases h
      · rw [hco] at h
        cases h

theorem dedupStep2_placeholder_match (g : GraphLookup) (c r : Contact)
    (hph : isPlaceholder c = true) (hsome : dedupStep2 g c = some r) :
    ∃ m, ((∃ fn co, c.firstName = some fn ∧ c.company = some co ∧
            g.byNameCompany fn co = some m) ∨
          (∃ fn ln co, c.firstName = some fn ∧ c.lastName = some ln ∧
            c.company = some co ∧ g.byDomainName fn ln co = some m)) ∧
      r = enrichExistingContact m c ∧ r.email = m.email := by
  unfold dedupStep2 at hsome
  rw [hph] at hsome
  simp only [Bool.true_eq_false, if_false] at hsome
  cases hfn : c.firstName with
  | none =>
    rw [hfn] at hsome
    cases hco : c.company <;> rw [hco] at hsome <;> cases hsome
  | some fn =>
    rw [hfn] at hsome
    cases hco : c.company with
    | none =>
      rw [hco] at hsome
      cases hsome
    | some co =>
      rw [hco] at hsome
      dsimp only at hsome
      cases hnc : g.byNameCompany fn co with
      | some m =>
        rw [hnc] at hsome
        injection hsome with hr
        exact ⟨m, Or.inl ⟨fn, co, rfl, rfl, hnc⟩, hr.symm, by rw [← hr]; rfl⟩
      | none =>
        rw [hnc] at hsome
        dsimp only at hsome
        cases hln : c.lastName with
        | none =>
          rw [hln] at hsome
          cases hsome
        | some ln =>
          rw [hln] at hsome
          dsimp only at hsome
          cases hdm : g.byDomainName fn ln co with
          | some m =>
            rw [hdm] at hsome
            injection hsome with hr
            exact ⟨m, Or.inr ⟨fn, ln, co, rfl, rfl, rfl, hdm⟩, hr.symm,
              by rw [← hr]; rfl⟩
          | none =>
            rw [hdm] at hsome
            cases hsome

/-- C3: assuming the graph invariant that no stored contact carries a
placeholder email, every output record of `deduplicateContacts` has a
real email; a placeholder contact lacking a first name or a company is
always dropped; and a placeholder contact that is emitted was merged into
a fuzzy-matched existing contact and carries that contact's email. -/
theorem placeholder_emails_never_survive_dedup (g : GraphLookup)
    (cs : List Contact)
    (hg1 : ∀ e c, g.byEmail e = some c → isPlaceholder c = false)
    (hg2 : ∀ fn co c, g.byNameCompany fn co = some c → isPlaceholder c = false)
    (hg3 : ∀ fn ln co c, g.byDomainName fn ln co = some c →
      isPlaceholder c = false) :
    (∀ r ∈ deduplicateContacts g cs, isPlaceholder r = false) ∧
    (∀ c, isPlaceholder c = true → (c.firstName = none ∨ c.company = none) →
      dedupStep2 g c = none) ∧
    (∀ c r, isPlaceholder c = true → dedupStep2 g c = some r →
      ∃ m, ((∃ fn co, c.firstName = some fn ∧ c.company = some co ∧
              g.byNameCompany fn co = some m) ∨
            (∃ fn ln co, c.firstName = some fn ∧ c.lastName = some ln ∧
              c.company = some co ∧ g.byDomainName fn ln co = some m)) ∧
        r = enrichExistingContact m c ∧ r.email = m.email) := by
  refine ⟨?_, dedupStep2_placeholder_no_names g,
    dedupStep2_placeholder_match g⟩
  intro r hr
  obtain ⟨c, hcmem, hstep⟩ := List.mem_filterMap.mp hr
  by_cases hph : isPlaceholder c = true
  · obtain ⟨m, hm, hre, _⟩ := dedupStep2_placeholder_match g c r hph hstep
    have hmfalse : isPlaceholder m = false := by
      rcases hm with ⟨fn, co, _, _, hl⟩ | ⟨fn, ln, co, _, _, _, hl⟩
      · exact hg2 fn co m hl
      · exact hg3 fn ln co m hl
    rw [hre, isPlaceholder_enrich]
    exact hmfalse
  · have hph2 : isPlaceholder c = false := by
      simpa using hph
    unfold dedupStep2 at hstep
    rw [hph2] at hstep
    simp only [if_true] at hstep
    cases hbe : g.byEmail c.email with
    | some ex =>
      rw [hbe] at hstep
      injection hstep with hr2
      rw [← hr2, isPlaceholder_enrich]
      exact hg1 c.email ex hbe
    | none =>
      rw [hbe] at hstep
      injection hstep with hr2
      rw [← hr2]
      exact hph2

/-- Witness for C3: the LinkedIn placeholder scenario against a graph
holding the real `john@acme.com` contact. -/
theorem placeholder_emails_never_survive_witness :
    (∀ r ∈ deduplicateContacts johnLookup [johnPlaceholder],
      isPlaceholder r = false) ∧
    (∀ c, isPlaceholder c = true → (c.firstName = none ∨ c.company = none) →
      dedupStep2 johnLookup c = none) ∧
    (∀ c r, isPlaceholder c = true → dedupStep2 johnLookup c = some r →
      ∃ m, ((∃ fn co, c.firstName = some fn ∧ c.company = some co ∧
              johnLookup.byNameCompany fn co = some m) ∨
            (∃ fn ln co, c.firstName = some fn ∧ c.lastName = some ln ∧
              c.company = some co ∧
              johnLookup.byDomainName fn ln co = some m)) ∧
        r = enrichExistingContact m c ∧ r.email = m.email) :=
  placeholder_emails_never_survive_dedup johnLookup [johnPlaceholder]
    (by intro e c h; simp [johnLookup] at h)
    (by
      intro fn co c h
      dsimp only [johnLookup] at h
      split at h
      · injection h with h2
        rw [← h2]
        decide
      · simp at h)
    (by intro fn ln co c h; simp [johnLookup] at h)

/-! ### Second-degree discovery -/

theorem mem_insertByStrength (a x : SecondDegreeResult)
    (l : List SecondDegreeResult) :
    a ∈ insertByStrength x l ↔ a = x ∨ a ∈ l := by
  induction l with
  | nil => simp [insertByStrength]
  | cons y ys ih =>
    unfold insertByStrength
    split
    · simp
    · simp only [List.mem_cons, ih]
      tauto

theorem mem_sortByStrengthDesc (a : SecondDegreeResult)
    (l : List SecondDegreeResult) :
    a ∈ sortByStrengthDesc l ↔ a ∈ l := by
  induction l with
  | nil => simp [sortByStrengthDesc]
  | cons y ys ih =>
    unfold sortByStrengthDesc at *
    simp only [List.foldr_cons, mem_insertByStrength, ih, List.mem_cons]

/-- C5: every node returned by `findSecondDegree` is a Person that is not
owned by the requesting user, has no direct KNOWS edge from the user, and
is reached through at least one direct connection whose KNOWS strength is
present and at least `minStrength`. -/
theorem findSecondDegree_results_safe (db : GraphDB) (userId : String)
    (limit : ℕ) (minStrength : ℚ) (n : SecondDegreeResult)
    (hn : n ∈ findSecondDegree db userId limit minStrength) :
    (∃ p2, getNode db n.id = some p2 ∧ p2.isPerson = true ∧
      ∃ o, p2.ownerId = some o ∧ o ≠ userId) ∧
    (¬ ∃ e ∈ db.edges, e.etype = EdgeType.knows ∧ e.src = userId ∧
      e.dst = n.id) ∧
    (∃ r1 ∈ db.edges, r1.etype = EdgeType.knows ∧ r1.src = userId ∧
      n.id ∈ fofTargets db r1 r1.dst ∧
      ∃ s, r1.strength = some s ∧ minStrength ≤ s) := by
  unfold findSecondDegree at hn
  have h1 := List.mem_of_mem_take hn
  rw [mem_sortByStrengthDesc, List.mem_dedup, List.mem_flatMap] at h1
  obtain ⟨r1, hr1mem, hrow⟩ := h1
  split at hrow
  case isFalse => cases hrow
  case isTrue hcond =>
    obtain ⟨hket, hsrc, huser, hp1⟩ := hcond
    rw [List.mem_filterMap] at hrow
    obtain ⟨p2id, hp2mem, heq⟩ := hrow
    cases hget : getNode db p2id with
    | none =>
      rw [hget] at heq
      cases heq
    | some p2 =>
      rw [hget] at heq
      dsimp only at heq
      by_cases hfilt : secondDegreeFilter db userId minStrength r1 p2 = true
      · rw [if_pos hfilt] at heq
        injection heq with heq
        have hid : n.id = p2.id := by rw [← heq]; rfl
        have hstr : n.strength = r1.strength := by rw [← heq]; rfl
        unfold secondDegreeFilter at hfilt
        simp only [Bool.and_eq_true, Bool.not_eq_true] at hfilt
        obtain ⟨⟨howner, hnodirect⟩, hstrength⟩ := hfilt
        have hp2id : p2.id = p2id := by
          have := List.find?_some hget
          simpa using this
        have hpid : getNode db n.id = some p2 := by
          rw [hid, hp2id]
          exact hget
        refine ⟨⟨p2, hpid, ?_, ?_⟩, ?_, ?_⟩
        · -- p2 carries the Person label: it passed `nodeIsPerson` in fofTargets
          have hp2person : nodeIsPerson db p2id = true := by
            unfold fofTargets at hp2mem
            rw [List.mem_append] at hp2mem
            rcases hp2mem with h | h
            · rw [List.mem_filterMap] at h
              obtain ⟨e, _, he⟩ := h
              by_cases hc : ((e.etype = EdgeType.knows ∨
                  e.etype = EdgeType.colleagues) ∧ e ≠ r1) ∧ e.src = r1.dst ∧
                  nodeIsPerson db e.dst = true
              · rw [if_pos hc] at he
                injection he with he
                rw [← he]
                exact hc.2.2
              · rw [if_neg ?_] at he
                · cases he
                · intro hcc
                  exact hc ⟨hcc.1, hcc.2.1, by simpa using hcc.2.2⟩
            · rw [List.mem_flatMap] at h
              obtain ⟨e1, _, he1⟩ := h
              split at he1
              · rw [List.mem_filterMap] at he1
                obtain ⟨e2, _, he2⟩ := he1
                by_cases hc : ((e2.etype = EdgeType.knows ∨
                    e2.etype = EdgeType.colleagues) ∧ e2 ≠ r1) ∧ e2 ≠ e1 ∧
                    e2.src = e1.dst ∧ nodeIsPerson db e2.dst = true
                · rw [if_pos hc] at he2
                  injection he2 with he2
                  rw [← he2]
                  exact hc.2.2.2
                · rw [if_neg ?_] at he2
                  · cases he2
                  · intro hcc
                    exact hc ⟨hcc.1, hcc.2.1, hcc.2.2.1, by simpa using hcc.2.2.2⟩
              · cases he1
          unfold nodeIsPerson at hp2person
          rw [hget] at hp2person
          exact hp2person
        · cases ho : p2.ownerId with
          | none =>
            rw [ho] at howner
            cases howner
          | some o =>
            rw [ho] at howner
            exact ⟨o, rfl, by simpa using howner⟩
        · intro ⟨e, hemem, hek, hes, hed⟩
          have : db.edges.any (fun e =>
              e.etype = EdgeType.knows ∧ e.src = userId ∧ e.dst = n.id) = true :=
            List.any_eq_true.mpr ⟨e, hemem, by simp [hek, hes, hed]⟩
          rw [hid] at this
          rw [this] at hnodirect
          cases hnodirect
        · refine ⟨r1, hr1mem, by simpa using hket, by simpa using hsrc, ?_, ?_⟩
          · rw [hid, hp2id]
            exact hp2mem
          · cases hs : r1.strength with
            | none =>
              rw [hs] at hstrength
              cases hstrength
            | some st =>
              rw [hs] at hstrength
              exact ⟨st, rfl, by simpa using hstrength⟩
      · rw [if_neg hfilt] at heq
        cases heq

/-- Witness for C5 on the demonstration graph with `minStrength = 50`. -/
theorem findSecondDegree_results_safe_witness :
    (∃ p2, getNode secondDegreeDemoDB "b" = some p2 ∧ p2.isPerson = true ∧
      ∃ o, p2.ownerId = some o ∧ o ≠ "u") ∧
    (¬ ∃ e ∈ secondDegreeDemoDB.edges, e.etype = EdgeType.knows ∧
      e.src = "u" ∧ e.dst = "b") ∧
    (∃ r1 ∈ secondDegreeDemoDB.edges, r1.etype = EdgeType.knows ∧
      r1.src = "u" ∧ "b" ∈ fofTargets secondDegreeDemoDB r1 r1.dst ∧
      ∃ s, r1.strength = some s ∧ 50 ≤ s) :=
  findSecondDegree_results_safe secondDegreeDemoDB "u" 50 50
    ⟨"b", "b@y.com", "Bob", none, none, 2, some 60⟩ (by decide)

/-! ### Intro-path search: enumeration is sound and complete -/

theorem knowsSteps_sound {es : List GEdge} {used : List ℕ} {cur : String}
    {i : ℕ} {nxt : String} (h : (i, nxt) ∈ knowsSteps es used cur) :
    ∃ e, es[i]? = some e ∧ e.etype = EdgeType.knows ∧ i ∉ used ∧
      ((e.src = cur ∧ nxt = e.dst) ∨
       (e.src ≠ cur ∧ e.dst = cur ∧ nxt = e.src)) := by
  unfold knowsSteps at h
  rw [List.mem_filterMap] at h
  obtain ⟨j, hj, heq⟩ := h
  cases hget : es[j]? with
  | none =>
    rw [hget] at heq
    cases heq
  | some e =>
    rw [hget] at heq
    dsimp only at heq
    by_cases hc : e.etype = EdgeType.knows ∧ j ∉ used
    · rw [if_pos hc] at heq
      by_cases hs : e.src = cur
      · rw [if_pos hs] at heq
        rw [Option.some_inj, Prod.mk.injEq] at heq
        obtain ⟨h1, h2⟩ := heq
        subst h1
        exact ⟨e, hget, hc.1, hc.2, Or.inl ⟨hs, h2.symm⟩⟩
      · rw [if_neg hs] at heq
        by_cases hd : e.dst = cur
        · rw [if_pos hd] at heq
          rw [Option.some_inj, Prod.mk.injEq] at heq
          obtain ⟨h1, h2⟩ := heq
          subst h1
          exact ⟨e, hget, hc.1, hc.2, Or.inr ⟨hs, hd, h2.symm⟩⟩
        · rw [if_neg hd] at heq
          cases heq
    · rw [if_neg hc] at heq
      cases heq

theorem knowsSteps_complete {es : List GEdge} {used : List ℕ} {cur : String}
    {i : ℕ} {e : GEdge} (hget : es[i]? = some e)
    (hknows : e.etype = EdgeType.knows) (hused : i ∉ used)
    (hend : e.src = cur ∨ e.dst = cur) :
    (i, if e.src = cur then e.dst else e.src) ∈ knowsSteps es used cur := by
  unfold knowsSteps
  rw [List.mem_filterMap]
  refine ⟨i, ?_, ?_⟩
  · rw [List.mem_range]
    exact (List.getElem?_eq_some.mp hget).1
  · rw [hget]
    dsimp only
    rw [if_pos ⟨hknows, hused⟩]
    by_cases hs : e.src = cur
    · rw [if_pos hs, if_pos hs]
    · rw [if_neg hs, if_neg hs, if_pos (hend.resolve_left hs)]

theorem trailsFrom_sound {es : List GEdge} :
    ∀ (fuel : ℕ) (cur : String) (used : List ℕ) (idxs : List ℕ)
      (endn : String), (idxs, endn) ∈ trailsFrom es fuel cur used →
      IsKnowsTrail es cur endn idxs ∧ idxs.length ≤ fuel ∧ idxs.Nodup ∧
        ∀ i ∈ idxs, i ∉ used := by
  intro fuel
  induction fuel with
  | zero =>
    intro cur used idxs endn h
    unfold trailsFrom at h
    rw [List.mem_singleton] at h
    have h1 : idxs = [] := congrArg Prod.fst h
    have h2 : endn = cur := congrArg Prod.snd h
    subst h1
    subst h2
    exact ⟨rfl, by simp, List.nodup_nil, by simp⟩
  | succ fuel ih =>
    intro cur used idxs endn h
    unfold trailsFrom at h
    rw [List.mem_cons] at h
    rcases h with h | h
    · have h1 : idxs = [] := congrArg Prod.fst h
      have h2 : endn = cur := congrArg Prod.snd h
      subst h1
      subst h2
      exact ⟨rfl, by simp, List.nodup_nil, by simp⟩
    · rw [List.mem_flatMap] at h
      obtain ⟨st, hst, hmem⟩ := h
      rw [List.mem_map] at hmem
      obtain ⟨tr, htr, heq⟩ := hmem
      have h1 : idxs = st.1 :: tr.1 := (congrArg Prod.fst heq).symm
      have h2 : endn = tr.2 := (congrArg Prod.snd heq).symm
      subst h2
      obtain ⟨e, hget, hknows, hstused, hdir⟩ := knowsSteps_sound hst
      obtain ⟨htrail, hlen, hnodup, hfresh⟩ := ih st.2 (st.1 :: used) tr.1 tr.2 htr
      have hstep : IsKnowsTrail es cur tr.2 (st.1 :: tr.1) := by
        refine ⟨e, hget, hknows, ?_⟩
        rcases hdir with ⟨hsrc, hnxt⟩ | ⟨hnsrc, hdst, hnxt⟩
        · exact Or.inl ⟨hsrc, by rw [← hnxt]; exact htrail⟩
        · exact Or.inr ⟨hdst, by rw [← hnxt]; exact htrail⟩
      subst h1
      refine ⟨hstep, ?_, ?_, ?_⟩
      · simpa using Nat.succ_le_succ hlen
      · rw [List.nodup_cons]
        exact ⟨fun hmem => (hfresh st.1 hmem) (List.mem_cons_self _ _), hnodup⟩
      · intro i hi
        rw [List.mem_cons] at hi
        rcases hi with rfl | hi
        · exact hstused
        · intro hiu
          exact (hfresh i hi) (List.mem_cons_of_mem _ hiu)

theorem trailsFrom_complete {es : List GEdge} :
    ∀ (idxs : List ℕ) (fuel : ℕ) (cur : String) (used : List ℕ)
      (endn : String), IsKnowsTrail es cur endn idxs → idxs.Nodup →
      (∀ i ∈ idxs, i ∉ used) → idxs.length ≤ fuel →
      (idxs, endn) ∈ trailsFrom es fuel cur used := by
  intro idxs
  induction idxs with
  | nil =>
    intro fuel cur used endn htrail _ _ _
    have hcur : cur = endn := htrail
    subst hcur
    cases fuel with
    | zero => exact List.mem_singleton.mpr rfl
    | succ fuel => exact List.mem_cons_self _ _
  | cons i rest ih =>
    intro fuel cur used endn htrail hnodup hfresh hlen
    cases fuel with
    | zero => simp at hlen
    | succ fuel =>
      obtain ⟨e, hget, hknows, hdir⟩ := htrail
      rw [List.nodup_cons] at hnodup
      have hiused : i ∉ used := hfresh i (List.mem_cons_self _ _)
      have hrestfresh : ∀ j ∈ rest, j ∉ i :: used := by
        intro j hj
        rw [List.mem_cons]
        rintro (rfl | hju)
        · exact hnodup.1 hj
        · exact (hfresh j (List.mem_cons_of_mem _ hj)) hju
      have hrestlen : rest.length ≤ fuel := by simpa using hlen
      -- the step offered by the enumeration
      have hnext : ∃ nxt, (i, nxt) ∈ knowsSteps es used cur ∧
          IsKnowsTrail es nxt endn rest := by
        rcases hdir with ⟨hsrc, htrail2⟩ | ⟨hdst, htrail2⟩
        · refine ⟨if e.src = cur then e.dst else e.src, ?_, ?_⟩
          · exact knowsSteps_complete hget hknows hiused (Or.inl hsrc)
          · rw [if_pos hsrc]
            exact htrail2
        · refine ⟨if e.src = cur then e.dst else e.src, ?_, ?_⟩
          · exact knowsSteps_complete hget hknows hiused (Or.inr hdst)
          · by_cases hs : e.src = cur
            · rw [if_pos hs]
              -- src = dst = cur: continuing from either endpoint is the same
              have hsd : e.dst = e.src := by rw [hdst, hs]
              rw [← hsd] at htrail2
              exact htrail2
            · rw [if_neg hs]
              exact htrail2
      obtain ⟨nxt, hstep, htrail2⟩ := hnext
      unfold trailsFrom
      rw [List.mem_cons]
      right
      rw [List.mem_flatMap]
      refine ⟨(i, nxt), hstep, ?_⟩
      rw [List.mem_map]
      exact ⟨(rest, endn), ih fuel nxt (i :: used) endn htrail2 hnodup.2
        hrestfresh hrestlen, rfl⟩

theorem foldl_pickShorter_none {l : List (List ℕ)} :
    ∀ {acc : Option (List ℕ)}, l.foldl pickShorter acc = none →
      acc = none ∧ l = [] := by
  induction l with
  | nil =>
    intro acc h
    exact ⟨h, rfl⟩
  | cons t l ih =>
    intro acc h
    rw [List.foldl_cons] at h
    obtain ⟨hacc, -⟩ := ih h
    exfalso
    unfold pickShorter at hacc
    cases acc with
    | none => cases hacc
    | some b =>
      dsimp only at hacc
      split at hacc <;> cases hacc

theorem foldl_pickShorter_some {l : List (List ℕ)} :
    ∀ {acc : Option (List ℕ)} {b : List ℕ}, l.foldl pickShorter acc = some b →
      (acc = some b ∨ b ∈ l) ∧ (∀ x ∈ l, b.length ≤ x.length) ∧
        (∀ a, acc = some a → b.length ≤ a.length) := by
  induction l with
  | nil =>
    intro acc b h
    refine ⟨Or.inl h, by simp, ?_⟩
    intro a ha
    have hb : acc = some b := h
    rw [hb] at ha
    injection ha with ha
    exact le_of_eq (by rw [ha])
  | cons t l ih =>
    intro acc b h
    rw [List.foldl_cons] at h
    obtain ⟨hsrc, hmin, hacc⟩ := ih h
    have hpick : ∀ m, pickShorter acc t = some m →
        (acc = some m ∨ m = t) ∧ m.length ≤ t.length ∧
          (∀ a, acc = some a → m.length ≤ a.length) := by
      intro m hm
      unfold pickShorter at hm
      cases acc with
      | none =>
        injection hm with hm
        subst hm
        exact ⟨Or.inr rfl, le_refl _, by intro a ha; cases ha⟩
      | some a0 =>
        dsimp only at hm
        split at hm
        · injection hm with hm
          subst hm
          refine ⟨Or.inr rfl, le_refl _, ?_⟩
          intro a ha
          injection ha with ha
          subst ha
          omega
        · injection hm with hm
          subst hm
          refine ⟨Or.inl rfl, by omega, ?_⟩
          intro a ha
          injection ha with ha
          subst ha
          exact le_refl _
    rcases hsrc with hsrc | hsrc
    · obtain ⟨hm1, hm2, hm3⟩ := hpick b hsrc
      refine ⟨?_, ?_, ?_⟩
      · rcases hm1 with h1 | h1
        · exact Or.inl h1
        · exact Or.inr (by rw [h1]; exact List.mem_cons_self _ _)
      · intro x hx
        rw [List.mem_cons] at hx
        rcases hx with rfl | hx
        · exact hm2
        · exact hmin x hx
      · exact hm3
    · refine ⟨Or.inr (List.mem_cons_of_mem _ hsrc), ?_, ?_⟩
      · intro x hx
        rw [List.mem_cons] at hx
        rcases hx with rfl | hx
        · -- b came from the rest of the fold; compare through the picked value
          cases hp : pickShorter acc x with
          | none =>
            exfalso
            unfold pickShorter at hp
            cases acc with
            | none => cases hp
            | some a0 =>
              dsimp only at hp
              split at hp <;> cases hp
          | some m =>
            obtain ⟨-, hm2, -⟩ := hpick m hp
            exact le_trans (hacc m hp) hm2
        · exact hmin x hx
      · intro a ha
        cases hp : pickShorter acc t with
        | none =>
          exfalso
          unfold pickShorter at hp
          cases acc with
          | none => cases hp
          | some a0 =>
            dsimp only at hp
            split at hp <;> cases hp
        | some m =>
          obtain ⟨-, -, hm3⟩ := hpick m hp
          exact le_trans (hacc m hp) (hm3 a ha)

/-- C6: `findIntroPath` terminates with a well-defined result: `none`
exactly covers the no-path cases (no relationship-distinct KNOWS trail of
1..4 hops, including unreachable targets, self-targets without cycles and
missing nodes), and a returned path carries a shortest such trail whose
overall strength is the arithmetic mean of the edge strengths, with
null-strength edges contributing 0. -/
theorem findIntroPath_wellDefined (db : GraphDB) (u t : String) :
    ((¬ ∃ idxs, IsKnowsTrail db.edges u t idxs ∧ idxs ≠ [] ∧
        idxs.length ≤ 4 ∧ idxs.Nodup) → findIntroPath db u t = none) ∧
    (∀ p, findIntroPath db u t = some p →
      ∃ idxs, IsKnowsTrail db.edges u t idxs ∧ idxs ≠ [] ∧
        idxs.length ≤ 4 ∧ idxs.Nodup ∧
        (∀ jdxs, IsKnowsTrail db.edges u t jdxs → jdxs ≠ [] →
          jdxs.length ≤ 4 → jdxs.Nodup → idxs.length ≤ jdxs.length) ∧
        p.totalStrength =
          (idxs.map (edgeStrength db.edges)).sum / (idxs.length : ℚ)) := by
  constructor
  · intro hno
    unfold findIntroPath
    split
    · cases hshort : shortestKnowsTrail db u t with
      | none => rfl
      | some idxs =>
        exfalso
        unfold shortestKnowsTrail at hshort
        obtain ⟨hsrc, -, -⟩ := foldl_pickShorter_some hshort
        rcases hsrc with h | h
        · cases h
        · rw [List.mem_filterMap] at h
          obtain ⟨tr, htr, hif⟩ := h
          by_cases hc : tr.2 = t ∧ tr.1 ≠ []
          · rw [if_pos hc] at hif
            injection hif with hif
            obtain ⟨htrail, hlen, hnodup, -⟩ :=
              trailsFrom_sound 4 u [] tr.1 tr.2 htr
            exact hno ⟨tr.1, by rw [← hc.1]; exact htrail, hc.2, hlen, hnodup⟩
          · rw [if_neg hc] at hif
            cases hif
    · rfl
  · intro p hp
    unfold findIntroPath at hp
    split at hp
    case isFalse => cases hp
    case isTrue =>
      split at hp
      case h_1 => cases hp
      case h_2 idxs hshort =>
        dsimp only at hp
        split at hp
        · cases hp
        · injection hp with hp
          unfold shortestKnowsTrail at hshort
          obtain ⟨hsrc, hmin, -⟩ := foldl_pickShorter_some hshort
          rcases hsrc with h | h
          · cases h
          · rw [List.mem_filterMap] at h
            obtain ⟨tr, htr, hif⟩ := h
            by_cases hc : tr.2 = t ∧ tr.1 ≠ []
            · rw [if_pos hc] at hif
              injection hif with hif
              obtain ⟨htrail, hlen, hnodup, -⟩ :=
                trailsFrom_sound 4 u [] tr.1 tr.2 htr
              refine ⟨idxs, ?_, ?_, ?_, ?_, ?_, ?_⟩
              · rw [← hif, ← hc.1]
                exact htrail
              · rw [← hif]
                exact hc.2
              · rw [← hif]
                exact hlen
              · rw [← hif]
                exact hnodup
              · intro jdxs hjt hjne hjlen hjnodup
                refine hmin jdxs (List.mem_filterMap.mpr
                  ⟨(jdxs, t), ?_, by rw [if_pos ⟨rfl, hjne⟩]⟩)
                exact trailsFrom_complete jdxs 4 u [] t hjt hjnodup
                  (by simp) hjlen
              · rw [← hp]
            · rw [if_neg hc] at hif
              cases hif

/-- Witness for C6: on the edgeless graph the unreachable target yields
`none`; on the demonstration graph the found two-hop path has mean
strength (60 + 0) / 2 = 30 and is a shortest 1..4-hop KNOWS trail. -/
theorem findIntroPath_wellDefined_witness :
    findIntroPath emptyIntroDB "u" "t" = none ∧
    (∃ idxs, IsKnowsTrail introDemoDB.edges "u" "t" idxs ∧ idxs ≠ [] ∧
      idxs.length ≤ 4 ∧ idxs.Nodup ∧
      (∀ jdxs, IsKnowsTrail introDemoDB.edges "u" "t" jdxs → jdxs ≠ [] →
        jdxs.length ≤ 4 → jdxs.Nodup → idxs.length ≤ jdxs.length) ∧
      (NetworkPath.mk "u" "t" ["a"] 30).totalStrength =
        (idxs.map (edgeStrength introDemoDB.edges)).sum /
          (idxs.length : ℚ)) := by
  constructor
  · refine (findIntroPath_wellDefined emptyIntroDB "u" "t").1 ?_
    rintro ⟨idxs, htrail, hne, -, -⟩
    cases idxs with
    | nil => exact hne rfl
    | cons i rest =>
      obtain ⟨e, he, -⟩ := htrail
      simp [emptyIntroDB] at he
  · refine (findIntroPath_wellDefined introDemoDB "u" "t").2
      (NetworkPath.mk "u" "t" ["a"] 30) ?_
    have hshort : shortestKnowsTrail introDemoDB "u" "t" = some [0, 1] := by
      decide
    unfold findIntroPath
    rw [if_pos (by decide), hshort]
    dsimp only
    rw [if_neg (by decide)]
    have hw : walkNodes introDemoDB.edges "u" [0, 1] = ["u", "a", "t"] := by
      decide
    rw [hw]
    have hs : (List.map (edgeStrength introDemoDB.edges) [0, 1]).sum /
        (([0, 1] : List ℕ).length : ℚ) = 30 := by
      have h0 : edgeStrength introDemoDB.edges 0 = 60 := by decide
      have h1 : edgeStrength introDemoDB.edges 1 = 0 := by decide
      simp [h0, h1]
      norm_num
    rw [hs]
    rfl

/-- C7 (code bug): at `orphanDupState` the pair (p1, p2) is an oversized
same-email group, yet after `findAndMergeDuplicates` the duplicate `p2`
is still present — only its source tags were merged onto `p1` — because
the `WHERE u IS NOT NULL` row filter in the merge query stops the
`DETACH DELETE` from ever executing for a duplicate without a KNOWS
edge.  The fuzzy name pair (p3, p4) is reported as a candidate group and
is indeed left untouched. -/
theorem orphan_duplicate_survives_merge :
    oversizedEmailGroups orphanDupState "u" = [[orphanP1, orphanP2]] ∧
    nameDupeGroups orphanDupState "u" = [[orphanP3, orphanP4]] ∧
    (findAndMergeDuplicates orphanDupState "u").1.persons =
      [{ id := "p1", ownerId := "u", email := "dup@x.com",
         firstName := some "Ann", company := some "Acme",
         source := ["gmail", "linkedin"] },
       orphanP2, orphanP3, orphanP4] ∧
    orphanP2 ∈ (findAndMergeDuplicates orphanDupState "u").1.persons ∧
    (findAndMergeDuplicates orphanDupState "u").1.knows =
      orphanDupState.knows ∧
    (findAndMergeDuplicates orphanDupState "u").2 = 1 := by
  refine ⟨by decide, by decide, by decide, by decide, by decide, by decide⟩
